import Mathlib

/-!
# A shallow embedding of the optimax_rogue tick-resolution engine

This file embeds, in Lean, the data model and the tick-resolution algorithm of
the `optimax_rogue` server:

* `optimax_rogue/logic/moves.py`    — the `Move` enum,
* `optimax_rogue/game/world.py`     — `Tile`, `Dungeon`, `World`,
* `optimax_rogue/game/modifiers.py` — `CombatFlag`, `AttackResult`, `Modifier`,
* `optimax_rogue/game/attribles.py` — the per-tick recomputed attributes,
* `optimax_rogue/game/entities.py`  — `Entity`,
* `optimax_rogue/game/state.py`     — `GameState` and its two lookup indices,
* `optimax_rogue/logic/updates.py`  — the update records and their `apply`,
* `optimax_rogue/logic/updater.py`  — `Updater.update` and its helpers.

Modelling conventions, used throughout:

* Python objects referenced from several places (the entities, which sit in
  `GameState.entities` and are referenced by both lookup dicts and by the
  updater's working list) are modelled by a store: `GameState.entities` is the
  store, and the lookup dicts map their keys to the entity identifier.  A
  mutation of an entity object becomes a pointwise update of the store at that
  identifier; under the engine's "identifiers are unique" invariant the two
  semantics agree.
* Python `dict`s become association lists.  Insertion overwrites (the previous
  binding is erased), and `del` of a missing key — a `KeyError` in Python — is
  modelled as a no-op; no code path settled here deletes a missing key.
* Fallible operations (a `KeyError` on a missing dict key, a numpy
  out-of-range index, an arithmetic operation on an uninitialised
  `Attrible.value`, exhaustion of the random stream) return `Option`, `none`
  modelling the raised exception.
* numpy integer indexing is modelled faithfully, including the wrap-around of
  negative indices in `[-n, 0)`.
* Randomness is passed in explicitly: the two-player shuffle as a `Bool`, the
  NPC shuffle as an index order, the spawn-tile draws as a list of draws, and
  a modifier's `pre_event` as an arbitrary function held by the modifier.
-/

namespace Rogue

/-- `Move` enum from `logic/moves.py` (Up, Right, Down, Left, Stay). -/
inductive Move where
  | up
  | right
  | down
  | left
  | stay
deriving DecidableEq, Repr

/-- `calculate_pos` from `logic/updater.py:332`: the destination of a move
from `(x, y)`. -/
def calculate_pos (x y : Int) (move : Move) : Int × Int :=
  match move with
  | .up => (x, y - 1)
  | .down => (x, y + 1)
  | .right => (x + 1, y)
  | .left => (x - 1, y)
  | .stay => (x, y)

/-- `Tile` enum from `game/world.py` (Ground, Wall, StaircaseDown). -/
inductive Tile where
  | ground
  | wall
  | staircaseDown
deriving DecidableEq, Repr

/-- `Dungeon` from `game/world.py`: a `width × height` grid of tiles, stored
column-major like the `tiles[x, y]` numpy array (`tiles.get? x` is column
`x`). -/
structure Dungeon where
  width : Nat
  height : Nat
  tiles : List (List Tile)
deriving DecidableEq, Repr

/-- The numpy array behind `Dungeon.tiles` is rectangular with shape
`(width, height)`. -/
def Dungeon.WF (d : Dungeon) : Prop :=
  d.tiles.length = d.width ∧ ∀ col ∈ d.tiles, col.length = d.height

/-- numpy integer indexing into one axis of length `n`: indices in `[0, n)`
are used as-is, indices in `[-n, 0)` wrap around, anything else raises
`IndexError`. -/
def npIndex (n : Nat) (i : Int) : Option Nat :=
  if 0 ≤ i ∧ i < (n : Int) then some i.toNat
  else if -(n : Int) ≤ i ∧ i < 0 then some (i + n).toNat
  else none

/-- The tile read `dung.tiles[x, y]` (numpy semantics, wrap included), as
performed without a bounds check at `logic/updater.py:198`. -/
def Dungeon.tileRead (d : Dungeon) (x y : Int) : Option Tile :=
  match npIndex d.width x with
  | none => none
  | some xi =>
    match npIndex d.height y with
    | none => none
    | some yi => (d.tiles.get? xi).bind fun col => col.get? yi

/-- The in-bounds tile value, used by `is_blocked` after its explicit bounds
check (no wrap can occur there). -/
def Dungeon.tileAt (d : Dungeon) (x y : Int) : Option Tile :=
  if 0 ≤ x ∧ x < (d.width : Int) ∧ 0 ≤ y ∧ y < (d.height : Int) then
    (d.tiles.get? x.toNat).bind fun col => col.get? y.toNat
  else none

/-- `Dungeon.is_blocked` from `game/world.py:41`: true when `(x, y)` is
outside the map or a wall. -/
def Dungeon.is_blocked (d : Dungeon) (x y : Int) : Bool :=
  if x < 0 ∨ x ≥ (d.width : Int) ∨ y < 0 ∨ y ≥ (d.height : Int) then true
  else d.tileAt x y == some Tile.wall

/-- The flat (row-major over `(x, y)`, i.e. `flat = x * height + y`) indices
of the Ground cells, in increasing order: the `avail_inds` array of
`Dungeon.get_random_unblocked` (`game/world.py:57`). -/
def Dungeon.groundInds (d : Dungeon) : List Nat :=
  ((List.range (d.width * d.height)).filter fun flat =>
    d.tileAt (flat / d.height : Nat) (flat % d.height : Nat) == some Tile.ground)

/-- `Dungeon.get_random_unblocked` from `game/world.py:57` with the uniform
draw `np.random.randint(avail_inds.shape[0])` passed in as `choice`; `none`
models the `IndexError` raised when the draw is out of range (the caller
always draws below the count). -/
def Dungeon.get_random_unblocked (d : Dungeon) (choice : Nat) : Option (Int × Int) :=
  (d.groundInds.get? choice).map fun flat =>
    ((flat / d.height : Nat), (flat % d.height : Nat))

/-- `World` from `game/world.py`: the dict from depth to dungeon, as an
association list. -/
structure World where
  dungeons : List (Nat × Dungeon)
deriving DecidableEq, Repr

/-- First-match association-list lookup, the model of a Python dict read. -/
def alookup {α β : Type} [DecidableEq α] : List (α × β) → α → Option β
  | [], _ => none
  | p :: rest, k => if p.1 = k then some p.2 else alookup rest k

/-- Erase the binding of `k` (Python `del`; a no-op when `k` is absent). -/
def aerase {α β : Type} [DecidableEq α] : List (α × β) → α → List (α × β)
  | [], _ => []
  | p :: rest, k => if p.1 = k then rest else p :: aerase rest k

/-- Overwriting insertion (`dict[k] = v`). -/
def ainsert {α β : Type} [DecidableEq α] (l : List (α × β)) (k : α) (v : β) :
    List (α × β) :=
  (k, v) :: aerase l k

/-- `World.get_at_depth` (`game/world.py:113`); `none` is the `KeyError`. -/
def World.get_at_depth (w : World) (ind : Nat) : Option Dungeon :=
  alookup w.dungeons ind

/-- `World.set_at_depth` (`game/world.py:117`). -/
def World.set_at_depth (w : World) (ind : Nat) (dung : Dungeon) : World :=
  ⟨ainsert w.dungeons ind dung⟩

/-- `World.del_at_depth` (`game/world.py:121`). -/
def World.del_at_depth (w : World) (ind : Nat) : World :=
  ⟨aerase w.dungeons ind⟩

/-- `CombatFlag` enum from `game/modifiers.py` (Block, Ambush, Flee, Parry). -/
inductive CombatFlag where
  | block
  | ambush
  | flee
  | parry
deriving DecidableEq, Repr

/-- `AttackResult` from `game/modifiers.py:14`: the mutable damage value and
the tag set of one attack (the set is modelled as a list of flags). -/
structure AttackResult where
  damage : Int
  tags : List CombatFlag
deriving DecidableEq, Repr

/-- The two combat event names of `logic/updater.py` (the Python code uses
the strings 'parent_attack' and 'parent_defend'). -/
inductive EventName where
  | parent_attack
  | parent_defend
deriving DecidableEq, Repr

/-- The serialized opaque value a modifier's `pre_event` ships to clients;
modelled as an integer. -/
abbrev Preval : Type := Int

/-- `Modifier` from `game/modifiers.py:92`: the flat stat deltas and the
three event phases.  `pre_event` runs on the server only and may use
randomness — it is modelled as an arbitrary function held by the modifier;
`on_event` is, per the contract in `game/modifiers.py:138`, a deterministic
function that may still mutate the shared `AttackResult`, modelled as a
function from the result (plus the preval) to the new result; `post_event`
runs after the result is fixed and, per `game/modifiers.py:145`, no longer
alters it, so it carries no effect here.  The `game_state` argument of the
phases is not modelled: no modifier in the repository implements them, and
the contract requires `on`/`post` to be deterministic in `args` and
`preval`. -/
structure Modifier where
  flat_armor : Int
  flat_max_health : Int
  flat_damage : Int
  pre_event : EventName → AttackResult → Preval
  on_event : EventName → AttackResult → Preval → AttackResult

/-- `Entity` from `game/entities.py`.  The three `Attrible` values
(`attribles.py`) start as Python `None` and are filled in by `on_tick`, hence
`Option Int`. -/
structure Entity where
  iden : Nat
  depth : Nat
  x : Int
  y : Int
  health : Int
  base_max_health : Int
  base_damage : Int
  base_armor : Int
  max_health_value : Option Int
  damage_value : Option Int
  armor_value : Option Int
  modifiers : List Modifier
  items : List (Nat × Nat)

/-- `Entity.on_tick` (`game/entities.py:70`): recompute the three attribles
as base plus the sum of the modifiers' flat deltas (`game/attribles.py`). -/
def Entity.on_tick (e : Entity) : Entity :=
  { e with
    max_health_value :=
      some (e.modifiers.foldl (fun r m => r + m.flat_max_health) e.base_max_health)
    damage_value :=
      some (e.modifiers.foldl (fun r m => r + m.flat_damage) e.base_damage)
    armor_value :=
      some (e.modifiers.foldl (fun r m => r + m.flat_armor) e.base_armor) }

/-- The position key `(depth, x, y)` under which an entity is indexed. -/
def entKey (e : Entity) : Nat × Int × Int := (e.depth, e.x, e.y)

/-- `Entity.__eq__` (`game/entities.py:97`): value equality on identifier,
position, health, base stats, modifiers and items.  The cached attrible
values are *not* compared. -/
def Entity.eqv (a b : Entity) : Prop :=
  a.iden = b.iden ∧ a.depth = b.depth ∧ a.x = b.x ∧ a.y = b.y ∧
  a.health = b.health ∧ a.base_max_health = b.base_max_health ∧
  a.base_damage = b.base_damage ∧ a.base_armor = b.base_armor ∧
  a.modifiers = b.modifiers ∧ a.items = b.items

/-- `GameState` from `game/state.py`.  `entities` is the object store; the
two dicts hold the identifier of the entity object they reference
(`pos_lookup[(depth,x,y)] = entity`, `iden_lookup[iden] = entity`). -/
structure GameState where
  is_authoritative : Bool
  tick : Nat
  player_1_iden : Nat
  player_2_iden : Nat
  world : World
  entities : List Entity
  pos_lookup : List ((Nat × Int × Int) × Nat)
  iden_lookup : List Nat

/-- The `GameState` constructor (`game/state.py:25`): both indices are built
from the entity list. -/
def GameState.make (auth : Bool) (tick : Nat) (p1 p2 : Nat) (world : World)
    (entities : List Entity) : GameState :=
  { is_authoritative := auth
    tick := tick
    player_1_iden := p1
    player_2_iden := p2
    world := world
    entities := entities
    pos_lookup := entities.map fun e => (entKey e, e.iden)
    iden_lookup := entities.map Entity.iden }

/-- Resolve `iden_lookup[iden]`: the dict entry references the entity object
with that identifier in the store. -/
def GameState.getIden (gs : GameState) (iden : Nat) : Option Entity :=
  if iden ∈ gs.iden_lookup then gs.entities.find? (fun e => e.iden = iden)
  else none

/-- Resolve `pos_lookup[key]`: the dict entry references the entity object
whose identifier it stores. -/
def GameState.getPos (gs : GameState) (key : Nat × Int × Int) : Option Entity :=
  (alookup gs.pos_lookup key).bind fun i => gs.entities.find? (fun e => e.iden = i)

/-- Replace, in the store, the entity carrying `e.iden` by `e` — the model of
mutating that entity object in place. -/
def setEnt (entities : List Entity) (e : Entity) : List Entity :=
  entities.map fun x => if x.iden = e.iden then e else x

/-- `GameState.move_entity` (`game/state.py:64`): drop the old position key,
mutate the entity's position fields, add the new key.  `entity` is the
current value of the moved object. -/
def GameState.move_entity (gs : GameState) (entity : Entity)
    (newdepth : Nat) (newx newy : Int) : GameState :=
  let e' := { entity with depth := newdepth, x := newx, y := newy }
  { gs with
    pos_lookup := ainsert (aerase gs.pos_lookup (entKey entity)) (entKey e') e'.iden
    entities := setEnt gs.entities e' }

/-- `GameState.add_entity` (`game/state.py:78`). -/
def GameState.add_entity (gs : GameState) (entity : Entity) : GameState :=
  { gs with
    entities := gs.entities ++ [entity]
    pos_lookup := ainsert gs.pos_lookup (entKey entity) entity.iden
    iden_lookup := gs.iden_lookup ++ [entity.iden] }

/-- `GameState.remove_entity` (`game/state.py:84`): drop both index entries
and remove the (first value-equal, hence under unique identifiers the unique)
entity from the store. -/
def GameState.remove_entity (gs : GameState) (entity : Entity) : GameState :=
  { gs with
    pos_lookup := aerase gs.pos_lookup (entKey entity)
    iden_lookup := gs.iden_lookup.erase entity.iden
    entities := gs.entities.eraseP fun e => e.iden == entity.iden }

/-- `GameState.__eq__` (`game/state.py:134`): the authoritative flag, tick,
player identifiers, world and the entity list (pointwise `Entity.__eq__`)
must agree. -/
def GameState.eqRel (a b : GameState) : Prop :=
  a.is_authoritative = b.is_authoritative ∧ a.tick = b.tick ∧
  a.player_1_iden = b.player_1_iden ∧ a.player_2_iden = b.player_2_iden ∧
  a.world = b.world ∧ a.entities.length = b.entities.length ∧
  ∀ i (h₁ : i < a.entities.length) (h₂ : i < b.entities.length),
    Entity.eqv (a.entities.get ⟨i, h₁⟩) (b.entities.get ⟨i, h₂⟩)

/-! ## Update records (`logic/updates.py`)

Only the four record kinds the updater emits are modelled. -/

/-- The update records produced by `Updater.update`: entity position
(`updates.py:184`), combat (`updates.py:71`), death (`updates.py:165`) and
dungeon created (`updates.py:300`). -/
inductive Update where
  | entityPosition (order : Nat) (entity_iden : Nat) (depth : Nat)
      (depth_changed : Bool) (posx posy : Int)
  | entityCombat (order : Nat) (attacker_iden defender_iden : Nat)
      (og_damage : Int) (tags : List CombatFlag)
      (attack_prevals defend_prevals : List Preval)
  | entityDeath (order : Nat) (entity_iden : Nat)
  | dungeonCreated (order : Nat) (depth : Nat) (dungeon : Dungeon)
deriving DecidableEq, Repr

/-- One `on_event` pass over a modifier list: each modifier receives the
current `AttackResult` and its preval `prevals[ind]`; `none` models the
`IndexError` when the preval list is shorter than the modifier list.  This is
the loop shape shared verbatim by `Updater.handle_combat`
(`updater.py:314-317`) and `EntityCombatUpdate.apply` (`updates.py:123-126`).
Extra prevals beyond the modifier list are ignored, as in Python where the
loop is driven by `enumerate(modifiers)`. -/
def runOn : List Modifier → List Preval → EventName → AttackResult →
    Option AttackResult
  | [], _, _, ares => some ares
  | _ :: _, [], _, _ => none
  | m :: ms, p :: ps, ev, ares => runOn ms ps ev (m.on_event ev ares p)

/-- `GameStateUpdate.apply` for the four record kinds (`updates.py`):

* `EntityPositionUpdate.apply` (`updates.py:204`) sets the entity's
  `depth`/`x`/`y` fields and touches neither lookup index;
* `EntityCombatUpdate.apply` (`updates.py:117`) rebuilds the
  `AttackResult` from the logged original damage and tags, replays the `on`
  phases with the logged prevals (attacker's modifiers first, then the
  defender's), replays the `post` phases (which do not alter the result),
  then subtracts the final damage from the defender when it is positive;
* `EntityDeathUpdate.apply` (`updates.py:176`) removes the entity;
* `DungeonCreatedUpdate.apply` (`updates.py:312`) stores the dungeon.

`none` models the `KeyError`/`IndexError` paths (unknown identifier, missing
preval). -/
def applyUpdate (u : Update) (gs : GameState) : Option GameState :=
  match u with
  | .entityPosition _ iden depth _ posx posy =>
      match gs.getIden iden with
      | none => none
      | some e =>
        some { gs with
          entities := setEnt gs.entities { e with depth := depth, x := posx, y := posy } }
  | .entityCombat _ att_i def_i og tags aprev dprev =>
      match gs.getIden att_i with
      | none => none
      | some attent =>
        match gs.getIden def_i with
        | none => none
        | some defent =>
          match runOn attent.modifiers aprev .parent_attack ⟨og, tags⟩ with
          | none => none
          | some ares1 =>
            match runOn defent.modifiers dprev .parent_defend ares1 with
            | none => none
            | some ares =>
              if 0 < ares.damage then
                some { gs with
                  entities := setEnt gs.entities
                    { defent with health := defent.health - ares.damage } }
              else
                some gs
  | .entityDeath _ iden =>
      match gs.getIden iden with
      | none => none
      | some e => some (gs.remove_entity e)
  | .dungeonCreated _ depth dung =>
      some { gs with world := gs.world.set_at_depth depth dung }

/-- Apply a record list in order (the client's replay loop). -/
def applyUpdates (recs : List Update) (gs : GameState) : Option GameState :=
  recs.foldlM (fun g r => applyUpdate r g) gs

/-- Whether a record is a position record flagged `depth_changed` — the
record kind whose emission accompanies a player descend. -/
def Update.depthChange : Update → Bool
  | .entityPosition _ _ _ dc _ _ => dc
  | _ => false

/-! ## The updater (`logic/updater.py`) -/

/-- `UpdateResult` enum (`updater.py:16`). -/
inductive UpdateResult where
  | inProgress
  | player1Win
  | player2Win
  | tie
deriving DecidableEq, Repr

/-- `RealMove` enum (`updater.py:23`). -/
inductive RealMove where
  | rest
  | block
  | attackBlocked
  | attackFlee
  | attackAmbush
  | attackParry
  | move
  | descend
deriving DecidableEq, Repr

/-- `UpdatingEntity` (`updater.py:34`): the per-tick wrapper; the entity
object is referenced by its identifier. -/
structure UpdatingEntity where
  iden : Nat
  move : Move
  real_move : Option RealMove
deriving DecidableEq, Repr

/-- `DungeonDespawningStrategy` enum (`updater.py:47`). -/
inductive DungeonDespawningStrategy where
  | unreachable
  | unused
deriving DecidableEq, Repr

/-- The `Updater`'s configuration: the dungeon generator (an external
collaborator, `spawn_dungeon` modelled as a function of the depth) and the
despawn strategy. -/
structure UpdaterCfg where
  dgen : Nat → Dungeon
  despawn_strat : DungeonDespawningStrategy

/-- Assign `updents[i].real_move = rm` (a no-op on an out-of-range index,
which the updater never produces). -/
def setRM (updents : List UpdatingEntity) (i : Nat) (rm : RealMove) :
    List UpdatingEntity :=
  match updents.get? i with
  | some u => updents.set i { u with real_move := some rm }
  | none => updents

/-- The move-validation step of `Updater.update` (`updater.py:85-94`): the
destination of the player's submitted move is computed with `calculate_pos`
and the move is forced to Stay when `Dungeon.is_blocked` holds there.  A
total function: no input raises. -/
def fixMove (dung : Dungeon) (x y : Int) (m : Move) : Move :=
  if dung.is_blocked (calculate_pos x y m).1 (calculate_pos x y m).2 then Move.stay else m

/-- `Updater.should_despawn` (`updater.py:237`): whether the dungeon at
`depth` should be despawned, per the configured strategy, reading the two
players through `iden_lookup`. -/
def Updater.should_despawn (cfg : UpdaterCfg) (gs : GameState) (depth : Nat) :
    Option Bool :=
  match gs.getIden gs.player_1_iden with
  | none => none
  | some p1 =>
    match gs.getIden gs.player_2_iden with
    | none => none
    | some p2 =>
      match cfg.despawn_strat with
      | .unreachable => some (decide (p1.depth > depth ∧ p2.depth > depth))
      | .unused => some (decide (depth ≠ p1.depth ∧ depth ≠ p2.depth))

/-- The three phases of the modifier event protocol. -/
inductive Phase where
  | preP
  | onP
  | postP
deriving DecidableEq, Repr

/-- Which combat participant a callback belongs to. -/
inductive Side where
  | attackerSide
  | defenderSide
deriving DecidableEq, Repr

/-- One modifier callback invocation: its phase, the participant whose
modifier list it comes from, and the index of the modifier in that list. -/
structure PhaseCall where
  phase : Phase
  side : Side
  idx : Nat
deriving DecidableEq, Repr

/-- The callback invocation sequence of `Updater.handle_combat`
(`updater.py:310-321`): six `for` loops, each walking one modifier list in
attachment order — `pre_event` over the attacker's modifiers, `pre_event`
over the defender's, then `on_event` over both in the same order, then
`post_event` over both. -/
def combatCallTrace (attacker defender : Entity) : List PhaseCall :=
  ((List.range attacker.modifiers.length).map fun i => ⟨.preP, .attackerSide, i⟩) ++
  ((List.range defender.modifiers.length).map fun i => ⟨.preP, .defenderSide, i⟩) ++
  ((List.range attacker.modifiers.length).map fun i => ⟨.onP, .attackerSide, i⟩) ++
  ((List.range defender.modifiers.length).map fun i => ⟨.onP, .defenderSide, i⟩) ++
  ((List.range attacker.modifiers.length).map fun i => ⟨.postP, .attackerSide, i⟩) ++
  ((List.range defender.modifiers.length).map fun i => ⟨.postP, .defenderSide, i⟩)

/-- `Updater.handle_combat` (`updater.py:290`) for `attacker` against
`defender` (current object values); returns the mutated state, the emitted
combat record and the next order counter.

Following the source: the base damage is `attacker.damage.value -
attacker.armor.value` (the *attacker's* two attribles, `updater.py:305`;
`none` models the `TypeError` were they not yet computed); one shared
`AttackResult` starts from that damage and the tags; `pre_event` runs for all
attacker modifiers then all defender modifiers against the initial result
(the `on` phases have not yet mutated it); the `on` phases then thread the
shared result through the attacker's modifiers and then the defender's; the
`post` phases do not alter the result; if the final damage is positive it is
subtracted from the defender's health; finally the record carries the
original damage, the original tags and both preval lists. -/
def Updater.handle_combat (gs : GameState) (attacker defender : Entity)
    (tags : List CombatFlag) (order : Nat) :
    Option (GameState × Update × Nat) :=
  match attacker.damage_value with
  | none => none
  | some dmg =>
  match attacker.armor_value with
  | none => none
  | some arm =>
    let og_dmg := dmg - arm
    let ares0 : AttackResult := ⟨og_dmg, tags⟩
    let attack_prevals := attacker.modifiers.map fun m => m.pre_event .parent_attack ares0
    let defend_prevals := defender.modifiers.map fun m => m.pre_event .parent_defend ares0
    match runOn attacker.modifiers attack_prevals .parent_attack ares0 with
    | none => none
    | some ares1 =>
      match runOn defender.modifiers defend_prevals .parent_defend ares1 with
      | none => none
      | some ares =>
        let gs :=
          if 0 < ares.damage then
            { gs with
              entities := setEnt gs.entities
                { defender with health := defender.health - ares.damage } }
          else gs
        some (gs,
          .entityCombat order attacker.iden defender.iden og_dmg tags
            attack_prevals defend_prevals,
          order + 1)

/-- The retry loop of `Updater.handle_descend` (`updater.py:275-277`): draw a
random unblocked tile, redraw while the drawn cell is occupied.  The draws
are consumed from `rng`; `none` models both a failed draw and an exhausted
stream. -/
def spawnSearch (gs : GameState) (dung : Dungeon) (new_depth : Nat) :
    List Nat → Option (Int × Int × List Nat)
  | [] => none
  | c :: rest =>
      match dung.get_random_unblocked c with
      | none => none
      | some sp =>
        if alookup gs.pos_lookup (new_depth, sp.1, sp.2) = none then some (sp.1, sp.2, rest)
        else spawnSearch gs dung new_depth rest

/-- `Updater.handle_descend` (`updater.py:251`).  A non-player entity dies (a
death record; removed from the state).  A player advances to `depth + 1`:
when that depth has no dungeon the generator is invoked and a dungeon-created
record emitted; a spawn tile is then drawn until unoccupied, a
`depth_changed` position record emitted and the entity moved; finally, when
`should_despawn` holds for the old depth, that dungeon is deleted from the
world — with no record emitted.  Returns the new state, the emitted records,
the next order counter, the remaining draws and the assigned real move. -/
def Updater.handle_descend (cfg : UpdaterCfg) (gs : GameState) (entity : Entity)
    (order : Nat) (rng : List Nat) :
    Option (GameState × List Update × Nat × List Nat × RealMove) :=
  if gs.player_1_iden ≠ entity.iden ∧ gs.player_2_iden ≠ entity.iden then
    some (gs.remove_entity entity, [.entityDeath order entity.iden], order + 1, rng,
      .descend)
  else
    let old_depth := entity.depth
    let new_depth := old_depth + 1
    let (gs, recs, order) :=
      if alookup gs.world.dungeons new_depth = none then
        let dungeon := cfg.dgen new_depth
        ({ gs with world := gs.world.set_at_depth new_depth dungeon },
         [Update.dungeonCreated order new_depth dungeon], order + 1)
      else (gs, [], order)
    match gs.world.get_at_depth new_depth with
    | none => none
    | some dung =>
      match spawnSearch gs dung new_depth rng with
      | none => none
      | some (spawn_x, spawn_y, rng) =>
        let recs := recs ++
          [Update.entityPosition order entity.iden new_depth true spawn_x spawn_y]
        let order := order + 1
        let gs := gs.move_entity entity new_depth spawn_x spawn_y
        match Updater.should_despawn cfg gs old_depth with
        | none => none
        | some despawn =>
          let gs :=
            if despawn then { gs with world := gs.world.del_at_depth old_depth } else gs
          some (gs, recs, order, rng, .descend)

/-- `Updater.handle_move` (`updater.py:172`) for the entity at index `ind` of
the working list.  Returns the mutated state, the working list, the records
appended by this step, the next order counter and the remaining draws; `none`
models the exception paths (missing dict keys, numpy `IndexError`, exhausted
draws).  The dict `eiden_to_ind`, built once from the working list whose
order never changes, is modelled by `findIdx?`. -/
def Updater.handle_move (cfg : UpdaterCfg) (gs : GameState) (ind : Nat)
    (updents : List UpdatingEntity) (order : Nat) (rng : List Nat) :
    Option (GameState × List UpdatingEntity × List Update × Nat × List Nat) :=
  match updents.get? ind with
  | none => none
  | some ent =>
    if ent.move = .stay then
      let updents := if ent.real_move = none then setRM updents ind .rest else updents
      some (gs, updents, [], order, rng)
    else
      match gs.getIden ent.iden with
      | none => none
      | some entity =>
        let (newx, newy) := calculate_pos entity.x entity.y ent.move
        match alookup gs.pos_lookup (entity.depth, newx, newy) with
        | none =>
          match gs.world.get_at_depth entity.depth with
          | none => none
          | some dung =>
            match dung.tileRead newx newy with
            | none => none
            | some t =>
              if t = .staircaseDown then
                match Updater.handle_descend cfg gs entity order rng with
                | none => none
                | some (gs, recs, order, rng, rm) =>
                  some (gs, setRM updents ind rm, recs, order, rng)
              else
                let urec := Update.entityPosition order ent.iden entity.depth false newx newy
                let gs := gs.move_entity entity entity.depth newx newy
                some (gs, setRM updents ind .move, [urec], order + 1, rng)
        | some _ =>
          match gs.getPos (entity.depth, newx, newy) with
          | none => none
          | some at_pos =>
            match updents.findIdx? fun u => u.iden = at_pos.iden with
            | none => none
            | some at_pos_ind =>
              match updents.get? at_pos_ind with
              | none => none
              | some at_pos_upde =>
                if at_pos_upde.move = .stay then
                  match Updater.handle_combat gs entity at_pos [.block] order with
                  | none => none
                  | some (gs, urec, order) =>
                    some (gs, setRM (setRM updents at_pos_ind .block) ind .attackBlocked,
                      [urec], order, rng)
                else
                  let (at_pos_newx, at_pos_newy) :=
                    calculate_pos at_pos.x at_pos.y at_pos_upde.move
                  if (at_pos_newx, at_pos_newy) = (newx, newy) then
                    match Updater.handle_combat gs entity at_pos [.parry] order with
                    | none => none
                    | some (gs, urec, order) =>
                      some (gs, setRM updents ind .attackParry, [urec], order, rng)
                  else if at_pos_ind < ind then
                    match Updater.handle_combat gs entity at_pos [.ambush] order with
                    | none => none
                    | some (gs, urec, order) =>
                      some (gs, setRM updents ind .attackAmbush, [urec], order, rng)
                  else
                    match Updater.handle_combat gs entity at_pos [.flee] order with
                    | none => none
                    | some (gs, urec, order) =>
                      some (gs,
                        setRM (setRM updents at_pos_ind .block) ind .attackBlocked,
                        [urec], order, rng)

/-- The `for ind, updent in enumerate(updents)` loop of `Updater.update`
(`updater.py:129-130`), run over the index list. -/
def Updater.moveLoop (cfg : UpdaterCfg) :
    GameState → List UpdatingEntity → List Update → Nat → List Nat → List Nat →
    Option (GameState × List UpdatingEntity × List Update × Nat × List Nat)
  | gs, updents, recs, order, rng, [] => some (gs, updents, recs, order, rng)
  | gs, updents, recs, order, rng, ind :: rest =>
      match Updater.handle_move cfg gs ind updents order rng with
      | none => none
      | some (gs, updents, delta, order, rng) =>
        Updater.moveLoop cfg gs updents (recs ++ delta) order rng rest

/-- The body of the death sweep (`updater.py:134-141`), walking the listed
entities in order: every non-player entity with health ≤ 0 yields a death
record and is removed from the state. -/
def Updater.sweepGo : List Entity → GameState → List Update → Nat →
    GameState × List Update × Nat
  | [], gs, recs, order => (gs, recs, order)
  | e :: rest, gs, recs, order =>
      if e.health ≤ 0 ∧ e.iden ≠ gs.player_1_iden ∧ e.iden ≠ gs.player_2_iden then
        Updater.sweepGo rest (gs.remove_entity e) (recs ++ [Update.entityDeath order e.iden])
          (order + 1)
      else Updater.sweepGo rest gs recs order

/-- The death sweep of `Updater.update` (`updater.py:132-141`): walk the
entity list from the last index to the first.  Iterating the pre-sweep list
in reverse is exactly the source's downward index walk, since each removal
removes the element at the current index. -/
def Updater.deathSweep (gs : GameState) (recs : List Update) (order : Nat) :
    GameState × List Update × Nat :=
  Updater.sweepGo gs.entities.reverse gs recs order

/-- `Updater.update` (`updater.py:72`), the tick resolution.  Randomness is
explicit: `flip` is the `random.shuffle` of the two-element player list,
`npcOrder` the shuffle of the NPC list (an index order into it), `rng` the
spawn-tile draws.  NPC moves come from the base `decide_npc_move`
(`updater.py:157`), which returns Stay and appends nothing.  `order0` is the
updater's running `current_update_order`.  Steps: fetch the players; coerce
each player's move to Stay when its destination is blocked per
`Dungeon.is_blocked`; build the working list (players first, then NPCs in
state order, each sublist shuffled); run `handle_move` over every index; run
the death sweep; increment the tick; classify the result from the players'
healths. -/
def Updater.update (cfg : UpdaterCfg) (gs : GameState)
    (player1_move player2_move : Move) (flip : Bool) (npcOrder : List Nat)
    (rng : List Nat) (order0 : Nat) :
    Option (UpdateResult × List Update × GameState × Nat) :=
  match gs.getIden gs.player_1_iden with
  | none => none
  | some player1 =>
  match gs.getIden gs.player_2_iden with
  | none => none
  | some player2 =>
    match gs.world.get_at_depth player1.depth with
    | none => none
    | some dung1 =>
      let player1_move := fixMove dung1 player1.x player1.y player1_move
      match gs.world.get_at_depth player2.depth with
      | none => none
      | some dung2 =>
        let player2_move := fixMove dung2 player2.x player2.y player2_move
        let p1u : UpdatingEntity := ⟨gs.player_1_iden, player1_move, none⟩
        let p2u : UpdatingEntity := ⟨gs.player_2_iden, player2_move, none⟩
        let pupds := if flip then [p2u, p1u] else [p1u, p2u]
        let npcs := (gs.entities.filter fun e =>
            e.iden ≠ gs.player_1_iden ∧ e.iden ≠ gs.player_2_iden).map fun e =>
          UpdatingEntity.mk e.iden Move.stay none
        let updents := pupds ++ npcOrder.filterMap npcs.get?
        match Updater.moveLoop cfg gs updents [] order0 rng (List.range updents.length) with
        | none => none
        | some (gs, _updents, recs, order, _rng) =>
          match Updater.deathSweep gs recs order with
          | (gs, recs, order) =>
            let gs := { gs with tick := gs.tick + 1 }
            match gs.getIden gs.player_1_iden with
            | none => none
            | some p1f =>
            match gs.getIden gs.player_2_iden with
            | none => none
            | some p2f =>
              if p1f.health ≤ 0 then
                some ((if p2f.health ≤ 0 then .tie else .player2Win), recs, gs, order)
              else if p2f.health ≤ 0 then
                some (.player1Win, recs, gs, order)
              else
                some (.inProgress, recs, gs, order)

/-! ## Concrete test fixtures -/

/-- A 4 × 3 dungeon of Ground tiles. -/
def dungOpen : Dungeon := ⟨4, 3, List.replicate 4 (List.replicate 3 Tile.ground)⟩

/-- A 4 × 3 dungeon whose border is Wall, leaving the two interior cells
(1, 1) and (2, 1). -/
def dungWalled : Dungeon :=
  ⟨4, 3, [[Tile.wall, Tile.wall, Tile.wall],
          [Tile.wall, Tile.ground, Tile.wall],
          [Tile.wall, Tile.ground, Tile.wall],
          [Tile.wall, Tile.wall, Tile.wall]]⟩

/-- A depth-0 test entity with the given identifier, position, health, damage
and armor; attribles recomputed by `on_tick` (as the server loop does before
each `update` call), no modifiers, no items. -/
def mkEnt (i : Nat) (x y : Int) (hp dmg arm : Int) : Entity :=
  Entity.on_tick ⟨i, 0, x, y, hp, 10, dmg, arm, none, none, none, [], []⟩

/-- The spec §8 end-to-end scenario: player 1 (id 1) at (1, 1) with damage 3
/ armor 0, player 2 (id 2) at (2, 1) with damage 2 / armor 1, both at depth
0 of a walled test dungeon, tick 5. -/
def gsScenario : GameState :=
  GameState.make true 5 1 2 ⟨[(0, dungWalled)]⟩ [mkEnt 1 1 1 10 3 0, mkEnt 2 2 1 10 2 1]

/-- The same two players on the open test dungeon. -/
def gsOpen : GameState :=
  GameState.make true 5 1 2 ⟨[(0, dungOpen)]⟩ [mkEnt 1 1 1 10 3 0, mkEnt 2 2 1 10 2 1]

/-- Two entities at (1, 1) and (3, 1) of the open test dungeon. -/
def gsC3 : GameState :=
  GameState.make true 0 1 2 ⟨[(0, dungOpen)]⟩ [mkEnt 1 1 1 10 2 1, mkEnt 2 3 1 10 2 1]

/-- Two entities at (0, 1) and (3, 2) of the open test dungeon; the first one
sits on the left edge. -/
def gsC10 : GameState :=
  GameState.make true 0 1 2 ⟨[(0, dungOpen)]⟩ [mkEnt 1 0 1 10 2 1, mkEnt 2 3 2 10 2 1]

/-- Two entities on the walled test dungeon: one at the interior cell (1, 1)
below the wall at (1, 0), one at (3, 2). -/
def gsC10b : GameState :=
  GameState.make true 0 1 2 ⟨[(0, dungWalled)]⟩ [mkEnt 1 1 1 10 2 1, mkEnt 2 3 2 10 2 1]

/-- A fixed updater configuration for the concrete runs. -/
def cfg0 : UpdaterCfg := ⟨fun _ => dungOpen, .unreachable⟩

/-- The result of the stay/stay tick on the §8 scenario state. -/
def c2run : UpdateResult × List Update × GameState × Nat :=
  (Updater.update cfg0 gsScenario .stay .stay false [] [] 0).getD
    (.inProgress, [], gsScenario, 0)

/-! ## Derived notions used by the claim statements -/

/-- The final `AttackResult` of one combat after the `on` phases: rebuilt
from the original damage and tags, threaded through the attacker's `on`
passes and then the defender's with the given prevals — the computation both
`Updater.handle_combat` (`updater.py:305-317`) and the replay
`EntityCombatUpdate.apply` (`updates.py:120-126`) perform. -/
def combatOutcome (attMods defMods : List Modifier) (og : Int)
    (tags : List CombatFlag) (aprev dprev : List Preval) : Option AttackResult :=
  match runOn attMods aprev .parent_attack ⟨og, tags⟩ with
  | none => none
  | some ares1 => runOn defMods dprev .parent_defend ares1

/-- The total order on callback groups stated by the spec: all attacker pre,
all defender pre, all attacker on, all defender on, all attacker post, all
defender post. -/
def groupRank (c : PhaseCall) : Nat :=
  (match c.phase with | .preP => 0 | .onP => 2 | .postP => 4) +
  (match c.side with | .attackerSide => 0 | .defenderSide => 1)

/-- `c1` is invoked strictly before `c2`: its group comes first, or they
share a group (one participant's modifier list in one phase) and `c1`'s
modifier sits earlier in the attachment list. -/
def callsBefore (c1 c2 : PhaseCall) : Prop :=
  groupRank c1 < groupRank c2 ∨ (groupRank c1 = groupRank c2 ∧ c1.idx < c2.idx)

/-- The identifier index is the entity list's identifiers and those are
unique — the part of the state well-formedness the replay theorem needs. -/
def GameState.WFiden (gs : GameState) : Prop :=
  (gs.entities.map Entity.iden).Nodup ∧
  gs.iden_lookup = gs.entities.map Entity.iden

/-- The full index invariant of claim C3: every entity is reachable through
both indices under its current position key and identifier, the indices hold
no stale entries, the identifiers are unique, and (as for any Python dict)
the index keys are unique. -/
def IdxOK (gs : GameState) : Prop :=
  (gs.entities.map Entity.iden).Nodup ∧
  (gs.pos_lookup.map Prod.fst).Nodup ∧
  gs.iden_lookup.Nodup ∧
  (∀ e ∈ gs.entities, gs.getPos (entKey e) = some e ∧ gs.getIden e.iden = some e) ∧
  (∀ p ∈ gs.pos_lookup, ∃ e ∈ gs.entities, entKey e = p.1 ∧ e.iden = p.2) ∧
  (∀ i ∈ gs.iden_lookup, ∃ e ∈ gs.entities, e.iden = i)

/-- The simulation relation of the replay proof: the client state `c` agrees
with the server state `s` on everything `GameState.__eq__` compares (the
client's position index is allowed to drift — nothing the client applies
reads it), the client's identifier index matches the server's, the server's
identifiers are unique and every stored entity has its identifier indexed. -/
structure Rep (s c : GameState) : Prop where
  auth : c.is_authoritative = s.is_authoritative
  tickc : c.tick = s.tick
  p1 : c.player_1_iden = s.player_1_iden
  p2 : c.player_2_iden = s.player_2_iden
  ents : c.entities = s.entities
  world : c.world = s.world
  idenl : c.iden_lookup = s.iden_lookup
  nodup : (s.entities.map Entity.iden).Nodup
  complete : ∀ e ∈ s.entities, e.iden ∈ s.iden_lookup

/-- A 4 × 3 dungeon of Ground tiles with a StaircaseDown at (2, 1). -/
def dungStairs : Dungeon :=
  ⟨4, 3, [[Tile.ground, Tile.ground, Tile.ground],
          [Tile.ground, Tile.ground, Tile.ground],
          [Tile.ground, Tile.staircaseDown, Tile.ground],
          [Tile.ground, Tile.ground, Tile.ground]]⟩

/-- Player 1 at (1, 1) next to the staircase at (2, 1); player 2 at (3, 2). -/
def gsStairs : GameState :=
  GameState.make true 5 1 2 ⟨[(0, dungStairs)]⟩ [mkEnt 1 1 1 10 3 0, mkEnt 2 3 2 10 2 1]

/-- The concrete server-side combat run used to witness the combat-replay
theorem. -/
def c7srv : GameState × Update × Nat :=
  (Updater.handle_combat gsScenario (mkEnt 1 1 1 10 3 0) (mkEnt 2 2 1 10 2 1) [.block] 0).getD
    (gsScenario, .entityDeath 0 0, 0)

/-- The server-side Flee combat of the open-dungeon scenario. -/
def c5combat : GameState × Update × Nat :=
  (Updater.handle_combat gsOpen (mkEnt 1 1 1 10 3 0) (mkEnt 2 2 1 10 2 1) [.flee] 0).getD
    (gsOpen, .entityDeath 0 0, 0)

/-- The player-1 entity of the concrete scenarios. -/
def pEnt : Entity := mkEnt 1 1 1 10 3 0

/-- The concrete descend run used to witness the staircase theorem: player 1
walks from (1, 1) onto the staircase at (2, 1); depth 1 has no dungeon yet
and the first draw lands on the free Ground cell (0, 0). -/
def c9run : GameState × List Update × Nat × List Nat × RealMove :=
  (Updater.handle_descend cfg0 gsStairs (mkEnt 1 1 1 10 3 0) 0 [0]).getD
    (gsStairs, [], 0, [], .rest)

/-! ## Supporting lemmas -/

theorem alookup_ainsert_self {α β : Type} [DecidableEq α] (l : List (α × β))
    (k : α) (v : β) : alookup (ainsert l k v) k = some v := by
  simp [alookup, ainsert]

theorem alookup_cons {α β : Type} [DecidableEq α] (p : α × β) (rest : List (α × β))
    (k : α) : alookup (p :: rest) k = if p.1 = k then some p.2 else alookup rest k := rfl

theorem aerase_cons {α β : Type} [DecidableEq α] (p : α × β) (rest : List (α × β))
    (k : α) : aerase (p :: rest) k = if p.1 = k then rest else p :: aerase rest k := rfl

theorem alookup_aerase_ne {α β : Type} [DecidableEq α] (l : List (α × β))
    (k k' : α) (hne : k' ≠ k) : alookup (aerase l k) k' = alookup l k' := by
  induction l with
  | nil => rfl
  | cons p rest ih =>
    rw [aerase_cons]
    by_cases hp : p.1 = k
    · rw [if_pos hp, alookup_cons, if_neg (fun he => hne (he.symm.trans hp))]
    · rw [if_neg hp, alookup_cons, alookup_cons]
      by_cases hp' : p.1 = k'
      · rw [if_pos hp', if_pos hp']
      · rw [if_neg hp', if_neg hp', ih]

theorem get_random_unblocked_ground (d : Dungeon) (choice : Nat) (sx sy : Int)
    (h : d.get_random_unblocked choice = some (sx, sy)) :
    d.tileAt sx sy = some Tile.ground := by
  unfold Dungeon.get_random_unblocked at h
  cases hg : d.groundInds.get? choice with
  | none => rw [hg] at h; exact Option.noConfusion h
  | some flat =>
    rw [hg] at h
    simp only [Option.map_some', Option.some.injEq, Prod.mk.injEq] at h
    obtain ⟨hx, hy⟩ := h
    have hmem : flat ∈ d.groundInds := List.get?_mem hg
    unfold Dungeon.groundInds at hmem
    have hp := List.of_mem_filter hmem
    rw [beq_iff_eq] at hp
    rw [← hx, ← hy]
    exact hp

theorem spawnSearch_spec (gs : GameState) (dung : Dungeon) (nd : Nat) :
    ∀ (rng : List Nat) (sx sy : Int) (rng' : List Nat),
    spawnSearch gs dung nd rng = some (sx, sy, rng') →
    dung.tileAt sx sy = some Tile.ground ∧
    alookup gs.pos_lookup (nd, sx, sy) = none := by
  intro rng
  induction rng with
  | nil => intro sx sy rng' h; exact Option.noConfusion h
  | cons c rest ih =>
    intro sx sy rng' h
    unfold spawnSearch at h
    split at h
    · exact Option.noConfusion h
    · rename_i p hp
      split at h
      · rename_i hfree
        simp only [Option.some.injEq, Prod.mk.injEq] at h
        obtain ⟨h1, h2, h3⟩ := h
        subst h1; subst h2
        exact ⟨get_random_unblocked_ground dung c p.1 p.2 (by rw [hp]), hfree⟩
      · exact ih sx sy rng' h

theorem is_blocked_of_tileRead_wall (d : Dungeon) (x y : Int)
    (h : d.tileRead x y = some Tile.wall) : d.is_blocked x y = true := by
  unfold Dungeon.tileRead at h
  split at h
  · exact Option.noConfusion h
  rename_i xi hxi
  split at h
  · exact Option.noConfusion h
  rename_i yi hyi
  unfold Dungeon.is_blocked
  by_cases hoob : x < 0 ∨ x ≥ (d.width : Int) ∨ y < 0 ∨ y ≥ (d.height : Int)
  · rw [if_pos hoob]
  · rw [if_neg hoob]
    push_neg at hoob
    obtain ⟨h1, h2, h3, h4⟩ := hoob
    unfold npIndex at hxi hyi
    rw [if_pos ⟨h1, h2⟩] at hxi
    rw [if_pos ⟨h3, h4⟩] at hyi
    obtain rfl := Option.some.inj hxi
    obtain rfl := Option.some.inj hyi
    unfold Dungeon.tileAt
    rw [if_pos ⟨h1, h2, h3, h4⟩, h]
    rfl

theorem setRM_get_self (updents : List UpdatingEntity) (i : Nat) (rm : RealMove)
    (u : UpdatingEntity) (h : updents.get? i = some u) :
    (setRM updents i rm).get? i = some { u with real_move := some rm } := by
  unfold setRM
  rw [h]
  have hlt : i < updents.length := by
    by_contra hge
    rw [List.get?_eq_none.mpr (by omega)] at h
    exact Option.noConfusion h
  rw [List.get?_set_eq, List.get?_eq_get hlt]
  rfl

theorem setRM_get_ne (updents : List UpdatingEntity) (i j : Nat) (rm : RealMove)
    (hne : j ≠ i) : (setRM updents i rm).get? j = updents.get? j := by
  unfold setRM
  cases hu : updents.get? i with
  | none => rfl
  | some u => exact List.get?_set_ne _ _ (fun he => hne he.symm)

theorem alookup_none_iff {α β : Type} [DecidableEq α] (l : List (α × β)) (k : α) :
    alookup l k = none ↔ k ∉ l.map Prod.fst := by
  induction l with
  | nil => simp [alookup]
  | cons p rest ih =>
    rw [alookup_cons]
    by_cases hp : p.1 = k
    · simp [hp]
    · simp only [if_neg hp, List.map_cons, List.mem_cons, ih]
      constructor
      · intro h hc
        rcases hc with hc | hc
        · exact hp hc.symm
        · exact h hc
      · intro h hc
        exact h (Or.inr hc)

theorem alookup_mem {α β : Type} [DecidableEq α] {l : List (α × β)} {k : α} {v : β}
    (h : alookup l k = some v) : (k, v) ∈ l := by
  induction l with
  | nil => exact Option.noConfusion h
  | cons p rest ih =>
    rw [alookup_cons] at h
    by_cases hp : p.1 = k
    · rw [if_pos hp] at h
      obtain rfl := Option.some.inj h
      exact List.mem_cons.mpr (Or.inl (by rw [← hp]))
    · rw [if_neg hp] at h
      exact List.mem_cons_of_mem _ (ih h)

theorem aerase_sublist {α β : Type} [DecidableEq α] (l : List (α × β)) (k : α) :
    (aerase l k).Sublist l := by
  induction l with
  | nil => exact List.Sublist.refl _
  | cons p rest ih =>
    rw [aerase_cons]
    by_cases hp : p.1 = k
    · rw [if_pos hp]
      exact List.sublist_cons_self _ _
    · rw [if_neg hp]
      exact ih.cons₂ p

theorem aerase_of_alookup_none {α β : Type} [DecidableEq α] (l : List (α × β))
    (k : α) (h : alookup l k = none) : aerase l k = l := by
  induction l with
  | nil => rfl
  | cons p rest ih =>
    rw [alookup_cons] at h
    rw [aerase_cons]
    by_cases hp : p.1 = k
    · rw [if_pos hp] at h
      exact Option.noConfusion h
    · rw [if_neg hp] at h
      rw [if_neg hp, ih h]

theorem mem_aerase {α β : Type} [DecidableEq α] {l : List (α × β)} {k : α}
    (hnd : (l.map Prod.fst).Nodup) (p : α × β) :
    p ∈ aerase l k ↔ p ∈ l ∧ p.1 ≠ k := by
  induction l with
  | nil => simp [aerase]
  | cons q rest ih =>
    rw [List.map_cons, List.nodup_cons] at hnd
    rw [aerase_cons]
    by_cases hq : q.1 = k
    · rw [if_pos hq]
      constructor
      · intro hp
        refine ⟨List.mem_cons_of_mem _ hp, fun hc => ?_⟩
        exact hnd.1 (hq ▸ hc ▸ List.mem_map_of_mem Prod.fst hp)
      · intro ⟨hp, hne⟩
        rcases List.mem_cons.mp hp with rfl | hp
        · exact absurd hq hne
        · exact hp
    · rw [if_neg hq]
      constructor
      · intro hp
        rcases List.mem_cons.mp hp with rfl | hp
        · exact ⟨List.mem_cons_self _ _, hq⟩
        · obtain ⟨h1, h2⟩ := (ih hnd.2).mp hp
          exact ⟨List.mem_cons_of_mem _ h1, h2⟩
      · intro ⟨hp, hne⟩
        rcases List.mem_cons.mp hp with rfl | hp
        · exact List.mem_cons_self _ _
        · exact List.mem_cons_of_mem _ ((ih hnd.2).mpr ⟨hp, hne⟩)

theorem alookup_eq_of_mem {α β : Type} [DecidableEq α] {l : List (α × β)}
    {k : α} {v : β} (hnd : (l.map Prod.fst).Nodup) (hmem : (k, v) ∈ l) :
    alookup l k = some v := by
  induction l with
  | nil => exact absurd hmem (List.not_mem_nil _)
  | cons p rest ih =>
    rw [List.map_cons, List.nodup_cons] at hnd
    rw [alookup_cons]
    rcases List.mem_cons.mp hmem with rfl | hmem
    · rw [if_pos rfl]
    · by_cases hp : p.1 = k
      · exfalso
        exact hnd.1 (hp ▸ (List.mem_map_of_mem Prod.fst hmem : (k, v).1 ∈ _))
      · rw [if_neg hp]
        exact ih hnd.2 hmem

theorem map_eq_self_of {α : Type} (l : List α) (f : α → α)
    (h : ∀ x ∈ l, f x = x) : l.map f = l := by
  induction l with
  | nil => rfl
  | cons y rest ih =>
    rw [List.map_cons, h y (List.mem_cons_self _ _),
      ih fun x hx => h x (List.mem_cons_of_mem _ hx)]

theorem setEnt_map_iden (es : List Entity) (e : Entity) :
    (setEnt es e).map Entity.iden = es.map Entity.iden := by
  unfold setEnt
  rw [List.map_map]
  apply List.map_congr_left
  intro x _
  by_cases hx : x.iden = e.iden <;> simp [Function.comp, hx]

theorem setEnt_eq_append {es l₁ l₂ : List Entity} {x : Entity} (e : Entity)
    (hnd : (es.map Entity.iden).Nodup) (hsplit : es = l₁ ++ x :: l₂)
    (hid : e.iden = x.iden) : setEnt es e = l₁ ++ e :: l₂ := by
  subst hsplit
  rw [List.map_append, List.map_cons] at hnd
  have hnotin₁ : x.iden ∉ l₁.map Entity.iden := by
    intro hc
    exact (List.disjoint_of_nodup_append hnd) hc (List.mem_cons_self _ _)
  have hnd₂ := (List.nodup_append.mp hnd).2.1
  rw [List.nodup_cons] at hnd₂
  unfold setEnt
  rw [List.map_append, List.map_cons]
  congr 1
  · apply map_eq_self_of
    intro y hy
    rw [if_neg]
    intro hc
    exact hnotin₁ (hid ▸ hc ▸ List.mem_map_of_mem Entity.iden hy)
  · congr 1
    · rw [if_pos hid.symm]
    · apply map_eq_self_of
      intro y hy
      rw [if_neg]
      intro hc
      exact hnd₂.1 (hid ▸ hc ▸ List.mem_map_of_mem Entity.iden hy)

theorem find?_iden_setEnt_ne (es : List Entity) (e : Entity) (i : Nat)
    (hne : i ≠ e.iden) :
    (setEnt es e).find? (fun x => x.iden = i) = es.find? (fun x => x.iden = i) := by
  induction es with
  | nil => rfl
  | cons y rest ih =>
    unfold setEnt
    rw [List.map_cons]
    by_cases hy : y.iden = e.iden
    · rw [if_pos hy]
      rw [List.find?_cons, List.find?_cons]
      have h1 : (decide (e.iden = i)) = false := decide_eq_false fun h => hne h.symm
      have h2 : (decide (y.iden = i)) = false :=
        decide_eq_false fun h => hne (h.symm.trans hy)
      rw [h1, h2]
      exact ih
    · rw [if_neg hy]
      rw [List.find?_cons, List.find?_cons]
      cases hd : decide (y.iden = i)
      · exact ih
      · rfl

theorem find?_iden_setEnt_self (es : List Entity) (e : Entity)
    (hex : ∃ x ∈ es, x.iden = e.iden) :
    (setEnt es e).find? (fun x => x.iden = e.iden) = some e := by
  induction es with
  | nil => obtain ⟨x, hx, _⟩ := hex; exact absurd hx (List.not_mem_nil _)
  | cons y rest ih =>
    unfold setEnt
    rw [List.map_cons]
    by_cases hy : y.iden = e.iden
    · rw [if_pos hy, List.find?_cons]
      simp
    · rw [if_neg hy, List.find?_cons]
      rw [show (decide (y.iden = e.iden)) = false by simp [hy]]
      apply ih
      obtain ⟨x, hx, hxi⟩ := hex
      rcases List.mem_cons.mp hx with rfl | hx
      · exact absurd hxi hy
      · exact ⟨x, hx, hxi⟩

theorem find?_iden_eraseP_ne (es : List Entity) (j i : Nat) (hne : i ≠ j) :
    (es.eraseP fun x => x.iden == j).find? (fun x => x.iden = i) =
      es.find? (fun x => x.iden = i) := by
  induction es with
  | nil => rfl
  | cons y rest ih =>
    rw [List.eraseP_cons]
    by_cases hy : y.iden = j
    · rw [show ((y.iden == j : Bool)) = true from beq_iff_eq.mpr hy]
      simp only [cond_true]
      rw [List.find?_cons,
        show (decide (y.iden = i)) = false from
          decide_eq_false fun h => hne (h.symm.trans hy)]
    · rw [show ((y.iden == j : Bool)) = false from beq_eq_false_iff_ne.mpr hy]
      simp only [cond_false]
      rw [List.find?_cons, List.find?_cons]
      cases hd : decide (y.iden = i)
      · exact ih
      · rfl

theorem eraseP_iden_eq_append {es l₁ l₂ : List Entity} {x : Entity}
    (hsplit : es = l₁ ++ x :: l₂) (hnotin : x.iden ∉ l₁.map Entity.iden) :
    es.eraseP (fun e => e.iden == x.iden) = l₁ ++ l₂ := by
  subst hsplit
  induction l₁ with
  | nil =>
    rw [List.nil_append, List.eraseP_cons,
      show ((x.iden == x.iden : Bool)) = true from beq_iff_eq.mpr rfl]
    rfl
  | cons y rest ih =>
    rw [List.map_cons, List.mem_cons] at hnotin
    push_neg at hnotin
    rw [List.cons_append, List.eraseP_cons,
      show ((y.iden == x.iden : Bool)) = false from
        beq_eq_false_iff_ne.mpr fun h => hnotin.1 h.symm]
    simp only [cond_false]
    rw [ih hnotin.2, List.cons_append]

theorem getPos_elim {gs : GameState} {key : Nat × Int × Int} {e : Entity}
    (h : gs.getPos key = some e) :
    alookup gs.pos_lookup key = some e.iden ∧
    gs.entities.find? (fun x => x.iden = e.iden) = some e := by
  unfold GameState.getPos at h
  cases ha : alookup gs.pos_lookup key with
  | none => rw [ha] at h; exact Option.noConfusion h
  | some i =>
    rw [ha] at h
    simp only [Option.some_bind] at h
    have hp := List.find?_some h
    have hid : e.iden = i := of_decide_eq_true hp
    subst hid
    exact ⟨rfl, h⟩

theorem getPos_intro {gs : GameState} {key : Nat × Int × Int} {i : Nat} {e : Entity}
    (ha : alookup gs.pos_lookup key = some i)
    (hf : gs.entities.find? (fun x => x.iden = i) = some e) :
    gs.getPos key = some e := by
  unfold GameState.getPos
  rw [ha]
  simpa using hf

theorem getIden_elim {gs : GameState} {i : Nat} {e : Entity}
    (h : gs.getIden i = some e) :
    i ∈ gs.iden_lookup ∧ e.iden = i ∧
    gs.entities.find? (fun x => x.iden = i) = some e := by
  unfold GameState.getIden at h
  split at h
  · rename_i hmem
    have hp := List.find?_some h
    exact ⟨hmem, of_decide_eq_true hp, h⟩
  · exact Option.noConfusion h

theorem getIden_intro {gs : GameState} {i : Nat} {e : Entity}
    (hmem : i ∈ gs.iden_lookup)
    (hf : gs.entities.find? (fun x => x.iden = i) = some e) :
    gs.getIden i = some e := by
  unfold GameState.getIden
  rw [if_pos hmem]
  exact hf

theorem mem_setEnt_of_ne {es : List Entity} {x : Entity} (e : Entity)
    (hx : x ∈ es) (hne : x.iden ≠ e.iden) : x ∈ setEnt es e :=
  List.mem_map.mpr ⟨x, hx, if_neg hne⟩

theorem mem_setEnt_self {es : List Entity} {x : Entity} (e : Entity)
    (hx : x ∈ es) (heq : x.iden = e.iden) : e ∈ setEnt es e :=
  List.mem_map.mpr ⟨x, hx, if_pos heq⟩

theorem mem_setEnt_cases {es : List Entity} {e y : Entity}
    (hy : y ∈ setEnt es e) :
    ∃ x ∈ es, (x.iden = e.iden ∧ y = e) ∨ (x.iden ≠ e.iden ∧ y = x) := by
  unfold setEnt at hy
  obtain ⟨x, hx, hxy⟩ := List.mem_map.mp hy
  by_cases hc : x.iden = e.iden
  · rw [if_pos hc] at hxy
    exact ⟨x, hx, Or.inl ⟨hc, hxy.symm⟩⟩
  · rw [if_neg hc] at hxy
    exact ⟨x, hx, Or.inr ⟨hc, hxy.symm⟩⟩

theorem ainsert_def {α β : Type} [DecidableEq α] (l : List (α × β)) (k : α)
    (v : β) : ainsert l k v = (k, v) :: aerase l k := rfl

theorem move_entity_def (gs : GameState) (entity : Entity) (nd : Nat)
    (nx ny : Int) :
    gs.move_entity entity nd nx ny = { gs with
      pos_lookup := ainsert (aerase gs.pos_lookup (entKey entity))
        (nd, nx, ny) entity.iden,
      entities := setEnt gs.entities
        { entity with depth := nd, x := nx, y := ny } } := rfl

/-- `GameState.move_entity` to an unoccupied cell preserves the index
invariant. -/
theorem IdxOK_move_entity (gs : GameState) (entity : Entity) (nd : Nat) (nx ny : Int)
    (hok : IdxOK gs) (hmem : entity ∈ gs.entities)
    (hfree : alookup gs.pos_lookup (nd, nx, ny) = none) :
    IdxOK (gs.move_entity entity nd nx ny) := by
  obtain ⟨hndI, hndP, hndL, hreach, hposS, hidenS⟩ := hok
  have hinj := List.inj_on_of_nodup_map hndI
  obtain ⟨hposE, hfindE⟩ := getPos_elim (hreach entity hmem).1
  obtain ⟨hmemL, _, _⟩ := getIden_elim (hreach entity hmem).2
  have hkne : (nd, nx, ny) ≠ entKey entity := by
    intro hc
    rw [hc, hposE] at hfree
    exact Option.noConfusion hfree
  have heq2 : aerase (aerase gs.pos_lookup (entKey entity)) (nd, nx, ny) =
      aerase gs.pos_lookup (entKey entity) := by
    apply aerase_of_alookup_none
    rw [alookup_aerase_ne _ _ _ hkne]
    exact hfree
  rw [move_entity_def, ainsert_def, heq2]
  refine ⟨?_, ?_, hndL, ?_, ?_, ?_⟩
  · rw [setEnt_map_iden]
    exact hndI
  · rw [List.map_cons, List.nodup_cons]
    constructor
    · intro hc
      exact (alookup_none_iff _ _).mp hfree
        (((aerase_sublist _ _).map Prod.fst).mem hc)
    · exact hndP.sublist ((aerase_sublist _ _).map Prod.fst)
  · intro e he
    obtain ⟨x, hx, hcase⟩ := mem_setEnt_cases he
    rcases hcase with ⟨hxi, rfl⟩ | ⟨hxi, rfl⟩
    · have hk : entKey ({ entity with depth := nd, x := nx, y := ny } : Entity) =
          (nd, nx, ny) := rfl
      constructor
      · rw [hk]
        refine getPos_intro (i := entity.iden) ?_ ?_
        · show alookup (((nd, nx, ny), entity.iden) ::
              aerase gs.pos_lookup (entKey entity)) (nd, nx, ny) = some entity.iden
          rw [alookup_cons, if_pos rfl]
        · exact find?_iden_setEnt_self gs.entities
            { entity with depth := nd, x := nx, y := ny } ⟨entity, hmem, rfl⟩
      · refine getIden_intro hmemL ?_
        exact find?_iden_setEnt_self gs.entities
          { entity with depth := nd, x := nx, y := ny } ⟨entity, hmem, rfl⟩
    · obtain ⟨hposX, hfindX⟩ := getPos_elim (hreach e hx).1
      obtain ⟨hmemX, _, _⟩ := getIden_elim (hreach e hx).2
      have hknew : entKey e ≠ (nd, nx, ny) := by
        intro hc
        rw [hc, hfree] at hposX
        exact Option.noConfusion hposX
      have hkold : entKey e ≠ entKey entity := by
        intro hc
        rw [hc, hposE] at hposX
        exact hxi (Option.some.inj hposX).symm
      constructor
      · refine getPos_intro (i := e.iden) ?_ ?_
        · show alookup (((nd, nx, ny), entity.iden) ::
              aerase gs.pos_lookup (entKey entity)) (entKey e) = some e.iden
          rw [alookup_cons, if_neg (fun hc => hknew hc.symm),
            alookup_aerase_ne _ _ _ hkold]
          exact hposX
        · show List.find? (fun x => x.iden = e.iden)
              (setEnt gs.entities { entity with depth := nd, x := nx, y := ny }) =
              some e
          rw [find?_iden_setEnt_ne _ _ _ hxi]
          exact hfindX
      · refine getIden_intro hmemX ?_
        show List.find? (fun x => x.iden = e.iden)
            (setEnt gs.entities { entity with depth := nd, x := nx, y := ny }) =
            some e
        rw [find?_iden_setEnt_ne _ _ _ hxi]
        exact hfindX
  · intro p hp
    rcases List.mem_cons.mp hp with rfl | hp
    · exact ⟨{ entity with depth := nd, x := nx, y := ny },
        mem_setEnt_self _ hmem rfl, rfl, rfl⟩
    · obtain ⟨hpl, hpk⟩ := (mem_aerase hndP p).mp hp
      obtain ⟨x, hx, hk, hi⟩ := hposS p hpl
      have hxne : x.iden ≠ entity.iden := by
        intro hc
        exact hpk (by rw [← hk]; exact congrArg entKey (hinj hx hmem hc))
      exact ⟨x, mem_setEnt_of_ne _ hx hxne, hk, hi⟩
  · intro i hi
    obtain ⟨x, hx, hxi⟩ := hidenS i hi
    by_cases hc : x.iden = entity.iden
    · exact ⟨{ entity with depth := nd, x := nx, y := ny },
        mem_setEnt_self _ hmem rfl, by rw [← hxi, hc]⟩
    · exact ⟨x, mem_setEnt_of_ne _ hx hc, hxi⟩

/-- `GameState.remove_entity` of a present entity preserves the index
invariant. -/
theorem IdxOK_remove_entity (gs : GameState) (entity : Entity)
    (hok : IdxOK gs) (hmem : entity ∈ gs.entities) :
    IdxOK (gs.remove_entity entity) := by
  obtain ⟨hndI, hndP, hndL, hreach, hposS, hidenS⟩ := hok
  have hinj := List.inj_on_of_nodup_map hndI
  obtain ⟨hposE, hfindE⟩ := getPos_elim (hreach entity hmem).1
  obtain ⟨hmemL, _, _⟩ := getIden_elim (hreach entity hmem).2
  obtain ⟨l₁, l₂, hsplit⟩ := List.append_of_mem hmem
  have hnotin : entity.iden ∉ l₁.map Entity.iden := by
    rw [hsplit, List.map_append, List.map_cons] at hndI
    intro hc2
    exact (List.disjoint_of_nodup_append hndI) hc2 (List.mem_cons_self _ _)
  have herase : gs.entities.eraseP (fun e => e.iden == entity.iden) = l₁ ++ l₂ :=
    eraseP_iden_eq_append hsplit hnotin
  have hmem_erase : ∀ x ∈ gs.entities, x.iden ≠ entity.iden →
      x ∈ gs.entities.eraseP (fun e => e.iden == entity.iden) := by
    intro x hx hxne
    rw [herase]
    have hxmem : x ∈ l₁ ++ entity :: l₂ := hsplit ▸ hx
    rcases List.mem_append.mp hxmem with h1 | h2
    · exact List.mem_append.mpr (Or.inl h1)
    · rcases List.mem_cons.mp h2 with rfl | h2
      · exact absurd rfl hxne
      · exact List.mem_append.mpr (Or.inr h2)
  have hsubE : (gs.entities.eraseP fun e => e.iden == entity.iden).Sublist
      gs.entities := List.eraseP_sublist _
  refine ⟨?_, ?_, ?_, ?_, ?_, ?_⟩
  · exact hndI.sublist (hsubE.map Entity.iden)
  · exact hndP.sublist ((aerase_sublist _ _).map Prod.fst)
  · exact hndL.sublist (List.erase_sublist _ _)
  · intro e he
    have hex : e ∈ gs.entities := hsubE.mem he
    have hne : e.iden ≠ entity.iden := by
      intro hc
      obtain rfl := hinj hex hmem hc
      have he2 : e ∈ List.eraseP (fun y => y.iden == e.iden) gs.entities := he
      rw [herase] at he2
      rw [hsplit, List.map_append, List.map_cons] at hndI
      rcases List.mem_append.mp he2 with h1 | h2
      · exact (List.disjoint_of_nodup_append hndI)
          (List.mem_map_of_mem Entity.iden h1) (List.mem_cons_self _ _)
      · have h3 := (List.nodup_append.mp hndI).2.1
        rw [List.nodup_cons] at h3
        exact h3.1 (List.mem_map_of_mem Entity.iden h2)
    obtain ⟨hposX, hfindX⟩ := getPos_elim (hreach e hex).1
    obtain ⟨hmemX, _, _⟩ := getIden_elim (hreach e hex).2
    have hkold : entKey e ≠ entKey entity := by
      intro hc
      rw [hc, hposE] at hposX
      exact hne (Option.some.inj hposX).symm
    constructor
    · refine getPos_intro (i := e.iden) ?_ ?_
      · show alookup (aerase _ _) _ = _
        rw [alookup_aerase_ne _ _ _ hkold]
        exact hposX
      · show List.find? _ (List.eraseP _ _) = _
        rw [find?_iden_eraseP_ne _ _ _ hne]
        exact hfindX
    · refine getIden_intro ?_ ?_
      · exact (List.mem_erase_of_ne hne).mpr hmemX
      · show List.find? _ (List.eraseP _ _) = _
        rw [find?_iden_eraseP_ne _ _ _ hne]
        exact hfindX
  · intro p hp
    obtain ⟨hpl, hpk⟩ := (mem_aerase hndP p).mp hp
    obtain ⟨x, hx, hk, hi⟩ := hposS p hpl
    have hxne : x.iden ≠ entity.iden := by
      intro hc
      exact hpk (by rw [← hk]; exact congrArg entKey (hinj hx hmem hc))
    exact ⟨x, hmem_erase x hx hxne, hk, hi⟩
  · intro i hi
    have hi2 := (List.Nodup.mem_erase_iff hndL).mp hi
    obtain ⟨x, hx, hxi⟩ := hidenS i hi2.2
    have hxne : x.iden ≠ entity.iden := by rw [hxi]; exact hi2.1
    exact ⟨x, hmem_erase x hx hxne, hxi⟩

/-- Mutating a stored entity in place without changing its identifier or its
position fields (the combat health update) preserves the index invariant. -/
theorem IdxOK_setEnt_same_key (gs : GameState) (x e : Entity)
    (hok : IdxOK gs) (hmem : x ∈ gs.entities) (hid : e.iden = x.iden)
    (hkey : entKey e = entKey x) :
    IdxOK { gs with entities := setEnt gs.entities e } := by
  obtain ⟨hndI, hndP, hndL, hreach, hposS, hidenS⟩ := hok
  have hinj := List.inj_on_of_nodup_map hndI
  obtain ⟨hposX, hfindX⟩ := getPos_elim (hreach x hmem).1
  obtain ⟨hmemX, _, _⟩ := getIden_elim (hreach x hmem).2
  refine ⟨?_, hndP, hndL, ?_, ?_, ?_⟩
  · show ((setEnt gs.entities e).map Entity.iden).Nodup
    rw [setEnt_map_iden]
    exact hndI
  · intro y hy
    obtain ⟨z, hz, hcase⟩ := mem_setEnt_cases hy
    rcases hcase with ⟨hzi, hye⟩ | ⟨hzi, hyz⟩
    · rw [hye]
      constructor
      · refine getPos_intro (i := e.iden) ?_ ?_
        · show alookup gs.pos_lookup (entKey e) = some e.iden
          rw [hkey, hid]
          exact hposX
        · exact find?_iden_setEnt_self _ _ ⟨x, hmem, hid.symm⟩
      · refine getIden_intro ?_ ?_
        · show e.iden ∈ gs.iden_lookup
          rw [hid]
          exact hmemX
        · exact find?_iden_setEnt_self _ _ ⟨x, hmem, hid.symm⟩
    · rw [hyz]
      obtain ⟨hposZ, hfindZ⟩ := getPos_elim (hreach z hz).1
      obtain ⟨hmemZ, _, _⟩ := getIden_elim (hreach z hz).2
      constructor
      · refine getPos_intro (i := z.iden) hposZ ?_
        rw [find?_iden_setEnt_ne _ _ _ hzi]
        exact hfindZ
      · refine getIden_intro hmemZ ?_
        rw [find?_iden_setEnt_ne _ _ _ hzi]
        exact hfindZ
  · intro p hp
    obtain ⟨w, hw, hk, hi⟩ := hposS p hp
    by_cases hc : w.iden = e.iden
    · obtain rfl := hinj hw hmem (hc.trans hid)
      exact ⟨e, mem_setEnt_self _ hmem hid.symm, hkey ▸ hk, hid ▸ hi⟩
    · exact ⟨w, mem_setEnt_of_ne _ hw hc, hk, hi⟩
  · intro i hi
    obtain ⟨w, hw, hwi⟩ := hidenS i hi
    by_cases hc : w.iden = e.iden
    · obtain rfl := hinj hw hmem (hc.trans hid)
      exact ⟨e, mem_setEnt_self _ hmem hid.symm, hid ▸ hwi⟩
    · exact ⟨w, mem_setEnt_of_ne _ hw hc, hwi⟩

theorem IdxOK_gsC3 : IdxOK gsC3 := by
  refine ⟨by decide, by decide, by decide, ?_, ?_, ?_⟩
  · intro e he
    rcases List.mem_cons.mp he with rfl | he
    · exact ⟨rfl, rfl⟩
    rcases List.mem_cons.mp he with rfl | he
    · exact ⟨rfl, rfl⟩
    exact absurd he (List.not_mem_nil _)
  · intro p hp
    rcases List.mem_cons.mp hp with rfl | hp
    · exact ⟨mkEnt 1 1 1 10 2 1, List.mem_cons_self _ _, rfl, rfl⟩
    rcases List.mem_cons.mp hp with rfl | hp
    · exact ⟨mkEnt 2 3 1 10 2 1,
        List.mem_cons_of_mem _ (List.mem_cons_self _ _), rfl, rfl⟩
    exact absurd hp (List.not_mem_nil _)
  · intro i hi
    rcases List.mem_cons.mp hi with rfl | hi
    · exact ⟨mkEnt 1 1 1 10 2 1, List.mem_cons_self _ _, rfl⟩
    rcases List.mem_cons.mp hi with rfl | hi
    · exact ⟨mkEnt 2 3 1 10 2 1,
        List.mem_cons_of_mem _ (List.mem_cons_self _ _), rfl⟩
    exact absurd hi (List.not_mem_nil _)

theorem applyUpdates_nil (gs : GameState) : applyUpdates [] gs = some gs := rfl

theorem applyUpdates_cons (u : Update) (l : List Update) (gs : GameState) :
    applyUpdates (u :: l) gs =
      (applyUpdate u gs).bind fun g => applyUpdates l g := rfl

theorem applyUpdates_append (l₁ l₂ : List Update) (gs : GameState) :
    applyUpdates (l₁ ++ l₂) gs =
      (applyUpdates l₁ gs).bind fun g => applyUpdates l₂ g := by
  induction l₁ generalizing gs with
  | nil => rfl
  | cons u l ih =>
    rw [List.cons_append, applyUpdates_cons, applyUpdates_cons]
    cases happ : applyUpdate u gs with
    | none => rfl
    | some g => exact ih g

theorem Entity.eqv_refl (e : Entity) : Entity.eqv e e :=
  ⟨rfl, rfl, rfl, rfl, rfl, rfl, rfl, rfl, rfl, rfl⟩

theorem eqRel_intro {a b : GameState}
    (h1 : a.is_authoritative = b.is_authoritative) (h2 : a.tick = b.tick)
    (h3 : a.player_1_iden = b.player_1_iden)
    (h4 : a.player_2_iden = b.player_2_iden)
    (h5 : a.world = b.world) (h6 : a.entities = b.entities) :
    GameState.eqRel a b := by
  refine ⟨h1, h2, h3, h4, h5, by rw [h6], ?_⟩
  intro i hi₁ hi₂
  have hg := List.get_of_eq h6 ⟨i, hi₁⟩
  rw [hg]
  exact Entity.eqv_refl _

theorem find?_iden_of_mem_nodup {es : List Entity}
    (hnd : (es.map Entity.iden).Nodup) {e : Entity} (he : e ∈ es) :
    es.find? (fun x => x.iden = e.iden) = some e := by
  induction es with
  | nil => exact absurd he (List.not_mem_nil _)
  | cons y rest ih =>
    rw [List.map_cons, List.nodup_cons] at hnd
    by_cases hy : y.iden = e.iden
    · have hey : e = y := by
        rcases List.mem_cons.mp he with rfl | hr
        · rfl
        · have : y.iden ∈ List.map Entity.iden rest := by
            rw [hy]
            exact List.mem_map_of_mem _ hr
          exact absurd this hnd.1
      rw [hey, List.find?_cons_of_pos]
      exact decide_eq_true rfl
    · rw [List.find?_cons_of_neg _ (by simpa using hy)]
      rcases List.mem_cons.mp he with rfl | hr
      · exact absurd rfl hy
      · exact ih hnd.2 hr

theorem iden_ne_of_mem_eraseP {es : List Entity} {e : Entity}
    (hnd : (es.map Entity.iden).Nodup) (hmem : e ∈ es) {x : Entity}
    (hx : x ∈ es.eraseP (fun y => y.iden == e.iden)) : x.iden ≠ e.iden := by
  intro hc
  obtain ⟨l₁, l₂, hsplit⟩ := List.append_of_mem hmem
  have hnotin : e.iden ∉ l₁.map Entity.iden := by
    rw [hsplit, List.map_append, List.map_cons] at hnd
    intro hc2
    exact (List.disjoint_of_nodup_append hnd) hc2 (List.mem_cons_self _ _)
  rw [eraseP_iden_eq_append hsplit hnotin] at hx
  rw [hsplit, List.map_append, List.map_cons] at hnd
  rcases List.mem_append.mp hx with h1 | h2
  · exact (List.disjoint_of_nodup_append hnd)
      (hc ▸ List.mem_map_of_mem Entity.iden h1) (List.mem_cons_self _ _)
  · have h3 := (List.nodup_append.mp hnd).2.1
    rw [List.nodup_cons] at h3
    exact h3.1 (hc ▸ List.mem_map_of_mem Entity.iden h2)

theorem mem_eraseP_iden {es : List Entity} {e x : Entity}
    (hx : x ∈ es) (hne : x.iden ≠ e.iden) :
    x ∈ es.eraseP (fun y => y.iden == e.iden) := by
  induction es with
  | nil => exact absurd hx (List.not_mem_nil _)
  | cons y rest ih =>
    rw [List.eraseP_cons]
    by_cases hy : y.iden = e.iden
    · rw [show ((y.iden == e.iden : Bool)) = true from beq_iff_eq.mpr hy]
      simp only [cond_true]
      rcases List.mem_cons.mp hx with rfl | hr
      · exact absurd hy hne
      · exact hr
    · rw [show ((y.iden == e.iden : Bool)) = false from beq_eq_false_iff_ne.mpr hy]
      simp only [cond_false]
      rcases List.mem_cons.mp hx with rfl | hr
      · exact List.mem_cons_self _ _
      · exact List.mem_cons_of_mem _ (ih hr)

theorem Rep.getIden_eq {s c : GameState} (h : Rep s c) (i : Nat) :
    c.getIden i = s.getIden i := by
  unfold GameState.getIden
  rw [h.idenl, h.ents]

theorem Rep_setEnt {s c : GameState} (h : Rep s c) {x : Entity} (e : Entity)
    (hx : x ∈ s.entities) (hide : e.iden = x.iden) :
    Rep { s with entities := setEnt s.entities e }
        { c with entities := setEnt c.entities e } := by
  refine ⟨h.auth, h.tickc, h.p1, h.p2, ?_, h.world, h.idenl, ?_, ?_⟩
  · show setEnt c.entities e = setEnt s.entities e
    rw [h.ents]
  · show ((setEnt s.entities e).map Entity.iden).Nodup
    rw [setEnt_map_iden]
    exact h.nodup
  · intro y hy
    obtain ⟨z, hz, hcase⟩ := mem_setEnt_cases hy
    rcases hcase with ⟨hzi, hye⟩ | ⟨hzi, hyz⟩
    · show y.iden ∈ s.iden_lookup
      rw [hye, hide]
      exact h.complete x hx
    · show y.iden ∈ s.iden_lookup
      rw [hyz]
      exact h.complete z hz

theorem Rep_move {s c : GameState} (h : Rep s c) {x : Entity}
    (hx : x ∈ s.entities) (nd : Nat) (nx ny : Int) :
    Rep (s.move_entity x nd nx ny)
        { c with
          entities := setEnt c.entities { x with depth := nd, x := nx, y := ny } } := by
  have h2 := Rep_setEnt h { x with depth := nd, x := nx, y := ny } hx rfl
  exact ⟨h2.auth, h2.tickc, h2.p1, h2.p2, h2.ents, h2.world, h2.idenl,
    h2.nodup, h2.complete⟩

theorem Rep_remove {s c : GameState} (h : Rep s c) {e : Entity}
    (he : e ∈ s.entities) :
    Rep (s.remove_entity e) (c.remove_entity e) := by
  refine ⟨h.auth, h.tickc, h.p1, h.p2, ?_, h.world, ?_, ?_, ?_⟩
  · show c.entities.eraseP (fun y => y.iden == e.iden) =
      s.entities.eraseP (fun y => y.iden == e.iden)
    rw [h.ents]
  · show c.iden_lookup.erase e.iden = s.iden_lookup.erase e.iden
    rw [h.idenl]
  · exact h.nodup.sublist ((List.eraseP_sublist _).map Entity.iden)
  · intro x hx
    have hx2 : x ∈ s.entities.eraseP (fun y => y.iden == e.iden) := hx
    have hxmem : x ∈ s.entities := (List.eraseP_sublist _).mem hx2
    have hne := iden_ne_of_mem_eraseP h.nodup he hx2
    exact (List.mem_erase_of_ne hne).mpr (h.complete x hxmem)

theorem applyDeath_sim {s c : GameState} (h : Rep s c) {e : Entity} (o : Nat)
    (hf : s.entities.find? (fun x => x.iden = e.iden) = some e)
    (hm : e.iden ∈ s.iden_lookup) :
    applyUpdate (.entityDeath o e.iden) c = some (c.remove_entity e) := by
  have hC : c.getIden e.iden = some e := by
    rw [h.getIden_eq]
    unfold GameState.getIden
    rw [if_pos hm]
    exact hf
  simp only [applyUpdate, hC]

theorem applyPos_sim {s c : GameState} (h : Rep s c) {e : Entity}
    (o dep' : Nat) (dc : Bool) (px py : Int)
    (hf : s.entities.find? (fun x => x.iden = e.iden) = some e)
    (hm : e.iden ∈ s.iden_lookup) :
    applyUpdate (.entityPosition o e.iden dep' dc px py) c =
      some { c with
        entities := setEnt c.entities { e with depth := dep', x := px, y := py } } := by
  have hC : c.getIden e.iden = some e := by
    rw [h.getIden_eq]
    unfold GameState.getIden
    rw [if_pos hm]
    exact hf
  simp only [applyUpdate, hC]

theorem handle_combat_sim {s c : GameState} (h : Rep s c)
    {attacker defender : Entity} {tags : List CombatFlag} {order : Nat}
    {s₂ : GameState} {urec : Update} {o₂ : Nat}
    (hcomb : Updater.handle_combat s attacker defender tags order =
      some (s₂, urec, o₂))
    (hfa : s.entities.find? (fun x => x.iden = attacker.iden) = some attacker)
    (hma : attacker.iden ∈ s.iden_lookup)
    (hfd : s.entities.find? (fun x => x.iden = defender.iden) = some defender)
    (hmd : defender.iden ∈ s.iden_lookup) :
    ∃ c₂, applyUpdate urec c = some c₂ ∧ Rep s₂ c₂ := by
  have hCA : c.getIden attacker.iden = some attacker := by
    rw [h.getIden_eq]
    unfold GameState.getIden
    rw [if_pos hma]
    exact hfa
  have hCD : c.getIden defender.iden = some defender := by
    rw [h.getIden_eq]
    unfold GameState.getIden
    rw [if_pos hmd]
    exact hfd
  unfold Updater.handle_combat at hcomb
  split at hcomb
  · exact Option.noConfusion hcomb
  rename_i dmg hdmg
  split at hcomb
  · exact Option.noConfusion hcomb
  rename_i arm harm
  dsimp only at hcomb
  split at hcomb
  · exact Option.noConfusion hcomb
  rename_i ares1 h1
  split at hcomb
  · exact Option.noConfusion hcomb
  rename_i ares h2
  simp only [Option.some.injEq, Prod.mk.injEq] at hcomb
  obtain ⟨hgs, hurec, hord⟩ := hcomb
  subst hgs hurec
  by_cases hdm : 0 < ares.damage
  · rw [if_pos hdm]
    refine ⟨{ c with
        entities := setEnt c.entities
          { defender with health := defender.health - ares.damage } }, ?_, ?_⟩
    · simp only [applyUpdate, hCA, hCD, h1, h2]
      rw [if_pos hdm]
    · exact Rep_setEnt h _ (List.mem_of_find?_eq_some hfd) rfl
  · rw [if_neg hdm]
    refine ⟨c, ?_, ?_⟩
    · simp only [applyUpdate, hCA, hCD, h1, h2]
      rw [if_neg hdm]
    · exact h

theorem handle_descend_sim {cfg : UpdaterCfg} {s c : GameState} (h : Rep s c)
    {entity : Entity} {order : Nat} {rng : List Nat}
    {s₂ : GameState} {δ : List Update} {o₂ : Nat} {r₂ : List Nat}
    {rm : RealMove}
    (hd : Updater.handle_descend cfg s entity order rng =
      some (s₂, δ, o₂, r₂, rm))
    (hf : s.entities.find? (fun x => x.iden = entity.iden) = some entity)
    (hm : entity.iden ∈ s.iden_lookup)
    (hnodc : ∀ u ∈ δ, u.depthChange = false) :
    ∃ c₂, applyUpdates δ c = some c₂ ∧ Rep s₂ c₂ := by
  unfold Updater.handle_descend at hd
  split at hd
  · rename_i hnpc
    simp only [Option.some.injEq, Prod.mk.injEq] at hd
    obtain ⟨hgs, hrecs, hord, hrng, hrm⟩ := hd
    subst hgs hrecs
    refine ⟨c.remove_entity entity, ?_, ?_⟩
    · rw [applyUpdates_cons, applyDeath_sim h order hf hm]
      rfl
    · exact Rep_remove h (List.mem_of_find?_eq_some hf)
  · rename_i hply
    exfalso
    dsimp only at hd
    by_cases hnew : alookup s.world.dungeons (entity.depth + 1) = none
    · rw [if_pos hnew] at hd
      dsimp only at hd
      split at hd
      · exact Option.noConfusion hd
      rename_i dung hdung
      split at hd
      · exact Option.noConfusion hd
      rename_i spx spy rng2 hsp
      split at hd
      · exact Option.noConfusion hd
      rename_i despawn hdesp
      simp only [Option.some.injEq, Prod.mk.injEq] at hd
      obtain ⟨hgs, hrecs, hord, hrng, hrm⟩ := hd
      have hmem : Update.entityPosition (order + 1) entity.iden
          (entity.depth + 1) true spx spy ∈ δ := by
        rw [← hrecs]
        exact List.mem_append_right _ (List.mem_cons_self _ _)
      have := hnodc _ hmem
      simp [Update.depthChange] at this
    · rw [if_neg hnew] at hd
      dsimp only at hd
      split at hd
      · exact Option.noConfusion hd
      rename_i dung hdung
      split at hd
      · exact Option.noConfusion hd
      rename_i spx spy rng2 hsp
      split at hd
      · exact Option.noConfusion hd
      rename_i despawn hdesp
      simp only [Option.some.injEq, Prod.mk.injEq] at hd
      obtain ⟨hgs, hrecs, hord, hrng, hrm⟩ := hd
      have hmem : Update.entityPosition order entity.iden
          (entity.depth + 1) true spx spy ∈ δ := by
        rw [← hrecs]
        exact List.mem_append_right _ (List.mem_cons_self _ _)
      have := hnodc _ hmem
      simp [Update.depthChange] at this

theorem handle_move_sim {cfg : UpdaterCfg} {s c : GameState} (h : Rep s c)
    {ind : Nat} {updents : List UpdatingEntity} {order : Nat} {rng : List Nat}
    {s₂ : GameState} {u₂ : List UpdatingEntity} {δ : List Update} {o₂ : Nat}
    {r₂ : List Nat}
    (hmv : Updater.handle_move cfg s ind updents order rng =
      some (s₂, u₂, δ, o₂, r₂))
    (hnodc : ∀ u ∈ δ, u.depthChange = false) :
    ∃ c₂, applyUpdates δ c = some c₂ ∧ Rep s₂ c₂ := by
  unfold Updater.handle_move at hmv
  split at hmv
  · exact Option.noConfusion hmv
  rename_i ent hget
  by_cases hstay : ent.move = Move.stay
  · rw [if_pos hstay] at hmv
    dsimp only at hmv
    simp only [Option.some.injEq, Prod.mk.injEq] at hmv
    obtain ⟨hgs, hupd, hδ, hord, hrng⟩ := hmv
    subst hgs hδ
    exact ⟨c, rfl, h⟩
  · rw [if_neg hstay] at hmv
    split at hmv
    · exact Option.noConfusion hmv
    rename_i entity hent
    obtain ⟨hmL, hee, hfind0⟩ := getIden_elim hent
    have hfind' : s.entities.find? (fun x => x.iden = entity.iden) =
        some entity := by
      rw [hee]
      exact hfind0
    have hm' : entity.iden ∈ s.iden_lookup := by
      rw [hee]
      exact hmL
    rw [← hee] at hmv
    obtain ⟨⟨px, py⟩, hpxy⟩ : ∃ p : Int × Int,
        calculate_pos entity.x entity.y ent.move = p := ⟨_, rfl⟩
    rw [hpxy] at hmv
    dsimp only at hmv
    split at hmv
    · rename_i hfree
      split at hmv
      · exact Option.noConfusion hmv
      rename_i dung hdung
      split at hmv
      · exact Option.noConfusion hmv
      rename_i t htile
      by_cases hstair : t = Tile.staircaseDown
      · rw [if_pos hstair] at hmv
        split at hmv
        · exact Option.noConfusion hmv
        rename_i gs' recs' ord' rng' rm' hdres
        simp only [Option.some.injEq, Prod.mk.injEq] at hmv
        obtain ⟨hgs, hupd, hδ, hord, hrng⟩ := hmv
        subst hgs hδ
        exact handle_descend_sim h hdres hfind' hm' hnodc
      · rw [if_neg hstair] at hmv
        simp only [Option.some.injEq, Prod.mk.injEq] at hmv
        obtain ⟨hgs, hupd, hδ, hord, hrng⟩ := hmv
        subst hgs hδ
        refine ⟨{ c with
            entities := setEnt c.entities
              { entity with depth := entity.depth, x := px, y := py } }, ?_, ?_⟩
        · rw [applyUpdates_cons,
            applyPos_sim h order entity.depth false px py hfind' hm']
          rfl
        · exact Rep_move h (List.mem_of_find?_eq_some hfind') entity.depth px py
    · rename_i occ hocc
      split at hmv
      · exact Option.noConfusion hmv
      rename_i at_pos hatpos
      split at hmv
      · exact Option.noConfusion hmv
      rename_i api hfidx
      split at hmv
      · exact Option.noConfusion hmv
      rename_i apu hgetap
      obtain ⟨haposA, hfindA⟩ := getPos_elim hatpos
      have hmdA : at_pos.iden ∈ s.iden_lookup :=
        h.complete at_pos (List.mem_of_find?_eq_some hfindA)
      by_cases hapstay : apu.move = Move.stay
      · rw [if_pos hapstay] at hmv
        split at hmv
        · exact Option.noConfusion hmv
        rename_i gs' urec' ord' hcomb
        simp only [Option.some.injEq, Prod.mk.injEq] at hmv
        obtain ⟨hgs, hupd, hδ, hord, hrng⟩ := hmv
        subst hgs hδ
        obtain ⟨c₂, happ, hrep₂⟩ :=
          handle_combat_sim h hcomb hfind' hm' hfindA hmdA
        refine ⟨c₂, ?_, hrep₂⟩
        rw [applyUpdates_cons, happ]
        rfl
      · rw [if_neg hapstay] at hmv
        obtain ⟨⟨qx, qy⟩, hq⟩ : ∃ p : Int × Int,
            calculate_pos at_pos.x at_pos.y apu.move = p := ⟨_, rfl⟩
        rw [hq] at hmv
        dsimp only at hmv
        by_cases hpar : ((qx, qy) : Int × Int) = (px, py)
        · rw [if_pos hpar] at hmv
          split at hmv
          · exact Option.noConfusion hmv
          rename_i gs' urec' ord' hcomb
          simp only [Option.some.injEq, Prod.mk.injEq] at hmv
          obtain ⟨hgs, hupd, hδ, hord, hrng⟩ := hmv
          subst hgs hδ
          obtain ⟨c₂, happ, hrep₂⟩ :=
            handle_combat_sim h hcomb hfind' hm' hfindA hmdA
          refine ⟨c₂, ?_, hrep₂⟩
          rw [applyUpdates_cons, happ]
          rfl
        · rw [if_neg hpar] at hmv
          by_cases hamb : api < ind
          · rw [if_pos hamb] at hmv
            split at hmv
            · exact Option.noConfusion hmv
            rename_i gs' urec' ord' hcomb
            simp only [Option.some.injEq, Prod.mk.injEq] at hmv
            obtain ⟨hgs, hupd, hδ, hord, hrng⟩ := hmv
            subst hgs hδ
            obtain ⟨c₂, happ, hrep₂⟩ :=
              handle_combat_sim h hcomb hfind' hm' hfindA hmdA
            refine ⟨c₂, ?_, hrep₂⟩
            rw [applyUpdates_cons, happ]
            rfl
          · rw [if_neg hamb] at hmv
            split at hmv
            · exact Option.noConfusion hmv
            rename_i gs' urec' ord' hcomb
            simp only [Option.some.injEq, Prod.mk.injEq] at hmv
            obtain ⟨hgs, hupd, hδ, hord, hrng⟩ := hmv
            subst hgs hδ
            obtain ⟨c₂, happ, hrep₂⟩ :=
              handle_combat_sim h hcomb hfind' hm' hfindA hmdA
            refine ⟨c₂, ?_, hrep₂⟩
            rw [applyUpdates_cons, happ]
            rfl

theorem moveLoop_sim (cfg : UpdaterCfg) (inds : List Nat) :
    ∀ (s : GameState) (updents : List UpdatingEntity) (recs : List Update)
      (order : Nat) (rng : List Nat) (s₁ : GameState)
      (u₁ : List UpdatingEntity) (recs₁ : List Update) (o₁ : Nat)
      (r₁ : List Nat),
    Updater.moveLoop cfg s updents recs order rng inds =
      some (s₁, u₁, recs₁, o₁, r₁) →
    ∃ Δ, recs₁ = recs ++ Δ ∧
      ∀ c, Rep s c → (∀ u ∈ Δ, u.depthChange = false) →
        ∃ c₁, applyUpdates Δ c = some c₁ ∧ Rep s₁ c₁ := by
  induction inds with
  | nil =>
    intro s updents recs order rng s₁ u₁ recs₁ o₁ r₁ hml
    unfold Updater.moveLoop at hml
    simp only [Option.some.injEq, Prod.mk.injEq] at hml
    obtain ⟨hgs, hupd, hrecs, hord, hrng⟩ := hml
    subst hgs hrecs
    exact ⟨[], (List.append_nil recs).symm, fun c hrep _ => ⟨c, rfl, hrep⟩⟩
  | cons ind rest ih =>
    intro s updents recs order rng s₁ u₁ recs₁ o₁ r₁ hml
    unfold Updater.moveLoop at hml
    split at hml
    · exact Option.noConfusion hml
    rename_i s' u' δ o' r' hstep
    obtain ⟨Δ', hr1, hr2⟩ := ih s' u' (recs ++ δ) o' r' s₁ u₁ recs₁ o₁ r₁ hml
    refine ⟨δ ++ Δ', by rw [hr1, List.append_assoc], ?_⟩
    intro c hrep hnodc
    obtain ⟨c', happ1, hrep'⟩ := handle_move_sim hrep hstep
      (fun u hu => hnodc u (List.mem_append_left _ hu))
    obtain ⟨c₁, happ2, hrep₁⟩ := hr2 c' hrep'
      (fun u hu => hnodc u (List.mem_append_right _ hu))
    refine ⟨c₁, ?_, hrep₁⟩
    rw [applyUpdates_append, happ1]
    exact happ2

theorem sweepGo_sim (l : List Entity) :
    ∀ (s : GameState) (recs : List Update) (order : Nat) (s₁ : GameState)
      (recs₁ : List Update) (o₁ : Nat),
    Updater.sweepGo l s recs order = (s₁, recs₁, o₁) →
    ∃ Δ, recs₁ = recs ++ Δ ∧
      ((l.map Entity.iden).Nodup → (∀ e ∈ l, e ∈ s.entities) →
        ∀ c, Rep s c → ∃ c₁, applyUpdates Δ c = some c₁ ∧ Rep s₁ c₁) := by
  induction l with
  | nil =>
    intro s recs order s₁ recs₁ o₁ hsw
    unfold Updater.sweepGo at hsw
    simp only [Prod.mk.injEq] at hsw
    obtain ⟨hgs, hrecs, hord⟩ := hsw
    subst hgs hrecs
    exact ⟨[], (List.append_nil recs).symm, fun _ _ c hrep => ⟨c, rfl, hrep⟩⟩
  | cons e rest ih =>
    intro s recs order s₁ recs₁ o₁ hsw
    unfold Updater.sweepGo at hsw
    by_cases hcond : e.health ≤ 0 ∧ e.iden ≠ s.player_1_iden ∧
        e.iden ≠ s.player_2_iden
    · rw [if_pos hcond] at hsw
      obtain ⟨Δ', hr1, hr2⟩ := ih _ _ _ _ _ _ hsw
      refine ⟨Update.entityDeath order e.iden :: Δ',
        by rw [hr1, List.append_assoc, List.singleton_append], ?_⟩
      intro hnd hsub c hrep
      rw [List.map_cons, List.nodup_cons] at hnd
      have hmem : e ∈ s.entities := hsub e (List.mem_cons_self _ _)
      have hsub' : ∀ x ∈ rest, x ∈ (s.remove_entity e).entities := by
        intro x hx
        have hxs := hsub x (List.mem_cons_of_mem _ hx)
        have hxne : x.iden ≠ e.iden := by
          intro hc
          exact hnd.1 (hc ▸ List.mem_map_of_mem Entity.iden hx)
        exact mem_eraseP_iden hxs hxne
      obtain ⟨c₁, happ, hrep₁⟩ := hr2 hnd.2 hsub'
        (c.remove_entity e) (Rep_remove hrep hmem)
      refine ⟨c₁, ?_, hrep₁⟩
      rw [applyUpdates_cons,
        applyDeath_sim hrep order (find?_iden_of_mem_nodup hrep.nodup hmem)
          (hrep.complete e hmem)]
      exact happ
    · rw [if_neg hcond] at hsw
      obtain ⟨Δ', hr1, hr2⟩ := ih _ _ _ _ _ _ hsw
      refine ⟨Δ', hr1, ?_⟩
      intro hnd hsub c hrep
      rw [List.map_cons, List.nodup_cons] at hnd
      exact hr2 hnd.2 (fun x hx => hsub x (List.mem_cons_of_mem _ hx)) c hrep

/-! ## Claim theorems -/

/-- C5 (amended): in the Flee case — the destination is occupied by an
entity that has not yet resolved (its index is not lower), whose move is not
Stay and does not land back on its own cell — the combat carries tag Flee,
the attacker is marked AttackBlocked, and the occupant is marked Block *at
that moment*; but the occupant is not held in its cell: its working-list
entry keeps its submitted move, so its own later resolution processes that
move normally (in the concrete run below the occupant ends the tick at the
free cell (3, 1), re-marked Move, with a position record emitted — it
neither remains in place nor stays marked Block). -/
theorem c5_flee_marks_but_does_not_block (cfg : UpdaterCfg) (gs : GameState)
    (ind : Nat) (updents : List UpdatingEntity) (order : Nat) (rng : List Nat)
    (ent : UpdatingEntity) (entity at_pos : Entity) (j at_pos_ind : Nat)
    (at_pos_upde : UpdatingEntity) (gs2 : GameState) (urec : Update) (order2 : Nat)
    (hget : updents.get? ind = some ent) (hmv : ent.move ≠ .stay)
    (hiden : gs.getIden ent.iden = some entity)
    (hocc : alookup gs.pos_lookup (entity.depth,
      (calculate_pos entity.x entity.y ent.move).1,
      (calculate_pos entity.x entity.y ent.move).2) = some j)
    (hatp : gs.getPos (entity.depth,
      (calculate_pos entity.x entity.y ent.move).1,
      (calculate_pos entity.x entity.y ent.move).2) = some at_pos)
    (hfind : (updents.findIdx? fun u => u.iden = at_pos.iden) = some at_pos_ind)
    (hgetap : updents.get? at_pos_ind = some at_pos_upde)
    (hmv2 : at_pos_upde.move ≠ .stay)
    (hparry : calculate_pos at_pos.x at_pos.y at_pos_upde.move ≠
      calculate_pos entity.x entity.y ent.move)
    (hlate : ¬(at_pos_ind < ind)) (hne : at_pos_ind ≠ ind)
    (hcombat : Updater.handle_combat gs entity at_pos [.flee] order =
      some (gs2, urec, order2)) :
    Updater.handle_move cfg gs ind updents order rng =
      some (gs2, setRM (setRM updents at_pos_ind .block) ind .attackBlocked,
        [urec], order2, rng) ∧
    ((setRM (setRM updents at_pos_ind .block) ind .attackBlocked).get? at_pos_ind =
      some { at_pos_upde with real_move := some RealMove.block }) ∧
    ((Updater.moveLoop cfg0 gsOpen [⟨1, .right, none⟩, ⟨2, .right, none⟩] [] 0 []
        [0, 1]).map
        (fun r => (r.2.1, r.2.2.1,
          r.1.entities.map fun (e : Entity) => (e.iden, e.x, e.y))) =
      some ([⟨1, .right, some .attackBlocked⟩, ⟨2, .right, some .move⟩],
        [.entityCombat 0 1 2 3 [.flee] [] [], .entityPosition 1 2 0 false 3 1],
        [(1, 1, 1), (2, 3, 1)])) := by
  refine ⟨?_, ?_, rfl⟩
  · unfold Updater.handle_move
    simp only [hget, if_neg hmv, hiden, hocc, hatp, hfind, hgetap, if_neg hmv2,
      if_neg hlate, hcombat]
    rw [if_neg (by simpa using hparry)]
  · rw [setRM_get_ne _ _ _ _ hne]
    exact setRM_get_self updents at_pos_ind .block at_pos_upde hgetap

/-- C5 witness: the Flee step of the open-dungeon scenario — player 1 at
(1, 1) moving Right into player 2 at (2, 1), who moves Right and has not yet
resolved. -/
theorem c5_flee_marks_but_does_not_block_witness :
    Updater.handle_move cfg0 gsOpen 0 [⟨1, .right, none⟩, ⟨2, .right, none⟩] 0 [] =
      some (c5combat.1,
        setRM (setRM [⟨1, .right, none⟩, ⟨2, .right, none⟩] 1 .block) 0 .attackBlocked,
        [c5combat.2.1], c5combat.2.2, []) ∧
    ((setRM (setRM [⟨1, .right, none⟩, ⟨2, .right, none⟩] 1 .block) 0
        .attackBlocked).get? 1 =
      some { (⟨2, .right, none⟩ : UpdatingEntity) with real_move := some RealMove.block }) ∧
    ((Updater.moveLoop cfg0 gsOpen [⟨1, .right, none⟩, ⟨2, .right, none⟩] [] 0 []
        [0, 1]).map
        (fun r => (r.2.1, r.2.2.1,
          r.1.entities.map fun (e : Entity) => (e.iden, e.x, e.y))) =
      some ([⟨1, .right, some .attackBlocked⟩, ⟨2, .right, some .move⟩],
        [.entityCombat 0 1 2 3 [.flee] [] [], .entityPosition 1 2 0 false 3 1],
        [(1, 1, 1), (2, 3, 1)])) :=
  c5_flee_marks_but_does_not_block cfg0 gsOpen 0
    [⟨1, .right, none⟩, ⟨2, .right, none⟩] 0 [] ⟨1, .right, none⟩
    (mkEnt 1 1 1 10 3 0) (mkEnt 2 2 1 10 2 1) 2 1 ⟨2, .right, none⟩
    c5combat.1 c5combat.2.1 c5combat.2.2 rfl (by decide) rfl rfl rfl rfl rfl
    (by decide) (by decide) (by decide) (by decide) rfl

/-- C10 (amended): `Updater.handle_move` never consults
`Dungeon.is_blocked` — blocked-destination validation exists only in
`Updater.update`'s player-move step.  (a) An unoccupied destination whose
unchecked tile read yields Wall is entered as a normal move with a position
record, even though `is_blocked` holds there.  (b) A destination beyond the
grid on the far side (x ≥ width) makes the unchecked tile read
`dung.tiles[newx, newy]` an out-of-range access — `handle_move` raises
instead of coercing the move to Stay.  (Destinations in the negative
wrap-around range are instead read through numpy's wrap, see the
counterexample.)  (c), (d): both behaviours at concrete inputs. -/
theorem c10_handle_move_skips_validation :
    (∀ (cfg : UpdaterCfg) (gs : GameState) (ind : Nat)
      (updents : List UpdatingEntity) (order : Nat) (rng : List Nat)
      (ent : UpdatingEntity) (entity : Entity) (dung : Dungeon),
      updents.get? ind = some ent → ent.move ≠ .stay →
      gs.getIden ent.iden = some entity →
      alookup gs.pos_lookup (entity.depth, (calculate_pos entity.x entity.y ent.move).1,
        (calculate_pos entity.x entity.y ent.move).2) = none →
      gs.world.get_at_depth entity.depth = some dung →
      dung.tileRead (calculate_pos entity.x entity.y ent.move).1
        (calculate_pos entity.x entity.y ent.move).2 = some Tile.wall →
      dung.is_blocked (calculate_pos entity.x entity.y ent.move).1
        (calculate_pos entity.x entity.y ent.move).2 = true ∧
      Updater.handle_move cfg gs ind updents order rng =
        some (gs.move_entity entity entity.depth
            (calculate_pos entity.x entity.y ent.move).1
            (calculate_pos entity.x entity.y ent.move).2,
          setRM updents ind .move,
          [Update.entityPosition order ent.iden entity.depth false
            (calculate_pos entity.x entity.y ent.move).1
            (calculate_pos entity.x entity.y ent.move).2],
          order + 1, rng)) ∧
    (∀ (cfg : UpdaterCfg) (gs : GameState) (ind : Nat)
      (updents : List UpdatingEntity) (order : Nat) (rng : List Nat)
      (ent : UpdatingEntity) (entity : Entity) (dung : Dungeon),
      updents.get? ind = some ent → ent.move ≠ .stay →
      gs.getIden ent.iden = some entity →
      alookup gs.pos_lookup (entity.depth, (calculate_pos entity.x entity.y ent.move).1,
        (calculate_pos entity.x entity.y ent.move).2) = none →
      gs.world.get_at_depth entity.depth = some dung →
      (dung.width : Int) ≤ (calculate_pos entity.x entity.y ent.move).1 →
      dung.tileRead (calculate_pos entity.x entity.y ent.move).1
        (calculate_pos entity.x entity.y ent.move).2 = none ∧
      Updater.handle_move cfg gs ind updents order rng = none) ∧
    ((Updater.handle_move cfg0 gsC10b 0 [⟨1, .up, none⟩] 0 []).map
        (fun r => (r.2.2.1, r.1.entities.map fun (e : Entity) => (e.iden, e.x, e.y))) =
      some ([.entityPosition 0 1 0 false 1 0], [(1, 1, 0), (2, 3, 2)]) ∧
      dungWalled.is_blocked 1 0 = true) ∧
    (Updater.handle_move cfg0 gsC10b 0 [⟨2, .right, none⟩] 0 [] = none ∧
      dungWalled.tileRead 4 2 = none) := by
  refine ⟨?_, ?_, ⟨rfl, rfl⟩, ⟨rfl, rfl⟩⟩
  · intro cfg gs ind updents order rng ent entity dung hget hmv hiden hfree hdung htile
    refine ⟨is_blocked_of_tileRead_wall dung _ _ htile, ?_⟩
    unfold Updater.handle_move
    simp only [hget, if_neg hmv, hiden, hfree, hdung, htile]
    rw [if_neg (by decide : ¬(Tile.wall = Tile.staircaseDown))]
  · intro cfg gs ind updents order rng ent entity dung hget hmv hiden hfree hdung hwide
    have htr : dung.tileRead (calculate_pos entity.x entity.y ent.move).1
        (calculate_pos entity.x entity.y ent.move).2 = none := by
      unfold Dungeon.tileRead
      have hnone : npIndex dung.width (calculate_pos entity.x entity.y ent.move).1 = none := by
        unfold npIndex
        rw [if_neg (by omega), if_neg (by omega)]
      rw [hnone]
    refine ⟨htr, ?_⟩
    unfold Updater.handle_move
    simp only [hget, if_neg hmv, hiden, hfree, hdung, htr]

/-- C1: in the §8 scenario (attacker damage 3 / armor 0, defender damage 2 /
armor 1, no modifiers), `Updater.update` resolves a Block combat whose
recorded `og_damage` is `attacker.damage − attacker.armor = 3 − 0 = 3` — not
`attacker.damage − defender.armor = 2` as the claim states — and the
defender's health drops from 10 to 7, i.e. by 3, not by 2.  The tick still
increments to 6, exactly one combat record and no position record are
emitted, and the result is InProgress.  `updater.py:305` subtracts the
attacker's own armor; the defender's armor is read nowhere. -/
theorem c1_combat_subtracts_attacker_armor :
    (Updater.update cfg0 gsScenario .right .stay false [] [] 0).map
        (fun r => (r.1, r.2.1, r.2.2.1.tick,
          r.2.2.1.entities.map fun (e : Entity) => (e.iden, e.health))) =
      some (.inProgress, [.entityCombat 0 1 2 3 [.block] [] []], 6,
        [(1, 10), (2, 7)]) := rfl

/-- C4: when the two players mutually swap (player 1 at (1,1) moves Right,
player 2 at (2,1) moves Left, player 1 resolving first), the tick resolves
*two* combats — first a Flee-tagged attack by player 1 on player 2, then an
Ambush-tagged attack by player 2 on player 1 — and no Parry combat at all;
both entities stay in place.  The Parry test at `updater.py:222` compares the
occupant's destination with the occupant's own cell `(newx, newy)` instead of
the attacker's cell, so it can never hold once `at_pos_upde.move != Stay`. -/
theorem c4_mutual_swap_double_combat :
    (Updater.update cfg0 gsScenario .right .left false [] [] 0).map
        (fun r => (r.2.1,
          r.2.2.1.entities.map fun (e : Entity) => (e.iden, e.health, e.x, e.y))) =
      some ([.entityCombat 0 1 2 3 [.flee] [] [],
             .entityCombat 1 2 1 1 [.ambush] [] []],
        [(1, 9, 1, 1), (2, 7, 2, 1)]) := rfl

/-- C2 counterexample: a stay/stay tick on the §8 scenario emits no records,
so replaying the emitted list on a value-equal copy of the pre-tick state
returns that state unchanged at tick 5, while the post-tick authoritative
state is at tick 6 — the two are not `GameState.__eq__`-equal, because no
update record replicates the tick increment (clients bump the tick on the
tick-end packet instead, `optimax_rogue_bots/main.py:136`). -/
theorem c2_tick_not_replayed :
    Updater.update cfg0 gsScenario .stay .stay false [] [] 0 = some c2run ∧
    c2run.2.1 = [] ∧
    applyUpdates c2run.2.1 gsScenario = some gsScenario ∧
    gsScenario.tick = 5 ∧ c2run.2.2.1.tick = 6 ∧
    ¬ GameState.eqRel gsScenario c2run.2.2.1 :=
  ⟨rfl, rfl, rfl, rfl, rfl, fun h => absurd h.2.1 (by decide)⟩

/-- C2 (amended): for any tick in which no player descends — no emitted
position record carries the `depth_changed` flag — applying the record list
returned by `Updater.update`, in order and with no access to the tick's
random draws, to a copy of the pre-tick state reproduces the post-tick
authoritative state up to the tick counter: the replayed state agrees with
the post-tick state (under `GameState.__eq__`) once its tick is incremented
by one.  No record increments the tick, and a descend additionally despawns
dungeons without any record, so the unqualified original claim fails
(`Rogue.c2_tick_not_replayed`). -/
theorem c2_replay_without_descend (cfg : UpdaterCfg) (gs : GameState)
    (m1 m2 : Move) (flip : Bool) (npcOrder rng : List Nat) (order0 : Nat)
    (res : UpdateResult) (recs : List Update) (post : GameState) (ordf : Nat)
    (hwf : GameState.WFiden gs)
    (hupd : Updater.update cfg gs m1 m2 flip npcOrder rng order0 =
      some (res, recs, post, ordf))
    (hnod : ∀ u ∈ recs, u.depthChange = false) :
    ∃ cli, applyUpdates recs gs = some cli ∧
      GameState.eqRel { cli with tick := cli.tick + 1 } post := by
  unfold Updater.update at hupd
  split at hupd
  · exact Option.noConfusion hupd
  rename_i player1 hp1
  split at hupd
  · exact Option.noConfusion hupd
  rename_i player2 hp2
  split at hupd
  · exact Option.noConfusion hupd
  rename_i dung1 hdung1
  dsimp only at hupd
  split at hupd
  · exact Option.noConfusion hupd
  rename_i dung2 hdung2
  split at hupd
  · exact Option.noConfusion hupd
  rename_i gs1 u1 recs1 o1 r1 hml
  obtain ⟨⟨gs2, recs2, o2⟩, hsw⟩ : ∃ t, Updater.deathSweep gs1 recs1 o1 = t :=
    ⟨_, rfl⟩
  rw [hsw] at hupd
  dsimp only at hupd
  split at hupd
  · exact Option.noConfusion hupd
  rename_i p1f hp1f
  split at hupd
  · exact Option.noConfusion hupd
  rename_i p2f hp2f
  have hkey : recs = recs2 ∧ post = { gs2 with tick := gs2.tick + 1 } := by
    split at hupd
    · simp only [Option.some.injEq, Prod.mk.injEq] at hupd
      exact ⟨hupd.2.1.symm, hupd.2.2.1.symm⟩
    · split at hupd
      · simp only [Option.some.injEq, Prod.mk.injEq] at hupd
        exact ⟨hupd.2.1.symm, hupd.2.2.1.symm⟩
      · simp only [Option.some.injEq, Prod.mk.injEq] at hupd
        exact ⟨hupd.2.1.symm, hupd.2.2.1.symm⟩
  obtain ⟨hrecs_eq, hpost_eq⟩ := hkey
  have hrep0 : Rep gs gs :=
    ⟨rfl, rfl, rfl, rfl, rfl, rfl, rfl, hwf.1,
      fun e he => by rw [hwf.2]; exact List.mem_map_of_mem _ he⟩
  obtain ⟨Δ, hΔ, hsim⟩ := moveLoop_sim cfg _ _ _ _ _ _ _ _ _ _ _ hml
  rw [List.nil_append] at hΔ
  have hswEq := hsw
  unfold Updater.deathSweep at hswEq
  obtain ⟨Δs, hΔs, hsims⟩ := sweepGo_sim gs1.entities.reverse _ _ _ _ _ _ hswEq
  have hnodΔ : ∀ u ∈ Δ, u.depthChange = false := fun u hu =>
    hnod u (by rw [hrecs_eq, hΔs, hΔ]; exact List.mem_append_left _ hu)
  obtain ⟨c1, happ1, hrep1⟩ := hsim gs hrep0 hnodΔ
  have hnd1 : (gs1.entities.reverse.map Entity.iden).Nodup := by
    rw [List.map_reverse]
    exact List.nodup_reverse.mpr hrep1.nodup
  obtain ⟨c2, happ2, hrep2⟩ := hsims hnd1
    (fun e he => List.mem_reverse.mp he) c1 hrep1
  refine ⟨c2, ?_, ?_⟩
  · rw [hrecs_eq, hΔs, hΔ, applyUpdates_append, happ1]
    exact happ2
  · rw [hpost_eq]
    exact eqRel_intro hrep2.auth
      (by show c2.tick + 1 = gs2.tick + 1; rw [hrep2.tickc])
      hrep2.p1 hrep2.p2 hrep2.world hrep2.ents

/-- C2 witness: the stay/stay tick on the §8 scenario emits no records;
replaying the empty list on the pre-tick state and bumping the tick
reproduces the post-tick state. -/
theorem c2_replay_without_descend_witness :
    GameState.WFiden gsScenario ∧
    ∃ cli, applyUpdates c2run.2.1 gsScenario = some cli ∧
      GameState.eqRel { cli with tick := cli.tick + 1 } c2run.2.2.1 :=
  ⟨⟨by decide, rfl⟩,
    c2_replay_without_descend cfg0 gsScenario .stay .stay false [] [] 0
      c2run.1 c2run.2.1 c2run.2.2.1 c2run.2.2.2 ⟨by decide, rfl⟩
      rfl (by decide)⟩

/-- C3 counterexample: applying an `EntityPositionUpdate` that moves entity 1
from (1, 1) to (2, 1) changes the entity's fields but leaves `pos_lookup`
untouched (`updates.py:204` sets only `depth`/`x`/`y`): afterwards the moved
entity is not reachable under its current key (0, 2, 1) and the stale entry
under the old key (0, 1, 1) still resolves to it. -/
theorem c3_position_apply_stale_index :
    (applyUpdate (.entityPosition 0 1 0 false 2 1) gsC3).map
        (fun g => (g.pos_lookup,
          g.entities.map fun (e : Entity) => (e.iden, e.x, e.y),
          (g.getPos (0, 2, 1)).map Entity.iden,
          (g.getPos (0, 1, 1)).map Entity.iden)) =
      some ([((0, 1, 1), 1), ((0, 3, 1), 2)],
        [(1, 2, 1), (2, 3, 1)], none, some 1) := rfl

/-- C3 (amended): the index invariant `IdxOK` — every stored entity
reachable through `pos_lookup` under its current position key and through
`iden_lookup` under its identifier, no stale entries, unique identifiers and
index keys — is satisfiable (`gsC3` enjoys it), is preserved by the
Updater's mutations `GameState.move_entity` (to a position-free cell) and
`GameState.remove_entity`, and is preserved by the applies of death, combat
and dungeon-created records; but `EntityPositionUpdate.apply`
(`updates.py:204`) changes only the entity's fields and leaves `pos_lookup`
and `iden_lookup` verbatim untouched, so it maintains the invariant only
when the entity does not actually move. -/
theorem c3_index_invariant :
    IdxOK gsC3 ∧
    (∀ gs entity nd nx ny, IdxOK gs → entity ∈ gs.entities →
      alookup gs.pos_lookup (nd, nx, ny) = none →
      IdxOK (gs.move_entity entity nd nx ny)) ∧
    (∀ gs entity, IdxOK gs → entity ∈ gs.entities →
      IdxOK (gs.remove_entity entity)) ∧
    (∀ gs gs' o i, IdxOK gs →
      applyUpdate (.entityDeath o i) gs = some gs' → IdxOK gs') ∧
    (∀ gs gs' o a d og tags ap dp, IdxOK gs →
      applyUpdate (.entityCombat o a d og tags ap dp) gs = some gs' →
      IdxOK gs') ∧
    (∀ gs gs' o dep dung, IdxOK gs →
      applyUpdate (.dungeonCreated o dep dung) gs = some gs' → IdxOK gs') ∧
    (∀ gs gs' o i dep dc px py,
      applyUpdate (.entityPosition o i dep dc px py) gs = some gs' →
      gs'.pos_lookup = gs.pos_lookup ∧ gs'.iden_lookup = gs.iden_lookup) := by
  refine ⟨IdxOK_gsC3, IdxOK_move_entity, IdxOK_remove_entity, ?_, ?_, ?_, ?_⟩
  · intro gs gs' o i hok h
    simp only [applyUpdate] at h
    split at h
    · exact Option.noConfusion h
    rename_i e he
    obtain ⟨_, _, hf⟩ := getIden_elim he
    obtain rfl := Option.some.inj h
    exact IdxOK_remove_entity gs e hok (List.mem_of_find?_eq_some hf)
  · intro gs gs' o a d og tags ap dp hok h
    simp only [applyUpdate] at h
    split at h
    · exact Option.noConfusion h
    rename_i attent hatt
    split at h
    · exact Option.noConfusion h
    rename_i defent hdef
    split at h
    · exact Option.noConfusion h
    rename_i ares1 h1
    split at h
    · exact Option.noConfusion h
    rename_i ares h2
    obtain ⟨_, _, hf⟩ := getIden_elim hdef
    by_cases hdmg : 0 < ares.damage
    · rw [if_pos hdmg] at h
      obtain rfl := Option.some.inj h
      exact IdxOK_setEnt_same_key gs defent
        { defent with health := defent.health - ares.damage } hok
        (List.mem_of_find?_eq_some hf) rfl rfl
    · rw [if_neg hdmg] at h
      obtain rfl := Option.some.inj h
      exact hok
  · intro gs gs' o dep dung hok h
    simp only [applyUpdate] at h
    obtain rfl := Option.some.inj h
    exact hok
  · intro gs gs' o i dep dc px py h
    simp only [applyUpdate] at h
    split at h
    · exact Option.noConfusion h
    rename_i e he
    obtain rfl := Option.some.inj h
    exact ⟨rfl, rfl⟩

/-- C5 counterexample: player 1 at (1, 1) moves Right into player 2 at
(2, 1), who moves Right to the free cell (3, 1); player 1 resolves first.
The Flee combat fires and marks the occupant Block, but when the occupant's
own resolution runs it carries out its move: it ends the tick at (3, 1) with
real move Move (a position record is emitted for it) — it does not remain in
its cell and does not end the tick marked Block. -/
theorem c5_flee_occupant_moves :
    (Updater.moveLoop cfg0 gsOpen [⟨1, .right, none⟩, ⟨2, .right, none⟩] [] 0 [] [0, 1]).map
        (fun r => (r.2.1, r.2.2.1,
          r.1.entities.map fun (e : Entity) => (e.iden, e.x, e.y))) =
      some ([⟨1, .right, some .attackBlocked⟩, ⟨2, .right, some .move⟩],
        [.entityCombat 0 1 2 3 [.flee] [] [], .entityPosition 1 2 0 false 3 1],
        [(1, 1, 1), (2, 3, 1)]) := rfl

/-- C6: for every combat, the callback sequence of `Updater.handle_combat`
runs the six groups in the order attacker-pre, defender-pre, attacker-on,
defender-on, attacker-post, defender-post, each group in attachment-list
order (`callsBefore` holds pairwise along the trace) — so every `pre`
completes before any `on` and every `on` before any `post` — and every
modifier of either participant is invoked in every phase. -/
theorem c6_phase_order (attacker defender : Entity) :
    (combatCallTrace attacker defender).Pairwise callsBefore ∧
    ∀ ph i,
      (i < attacker.modifiers.length →
        (⟨ph, .attackerSide, i⟩ : PhaseCall) ∈ combatCallTrace attacker defender) ∧
      (i < defender.modifiers.length →
        (⟨ph, .defenderSide, i⟩ : PhaseCall) ∈ combatCallTrace attacker defender) := by
  constructor
  · unfold combatCallTrace
    simp only [List.pairwise_append, List.pairwise_map, List.mem_map, List.mem_range]
    refine ⟨?_, ?_, ?_⟩ <;>
      simp_all [callsBefore, groupRank, List.pairwise_lt_range] <;>
      aesop
  · intro ph i
    constructor <;> intro h <;> cases ph <;>
      simp [combatCallTrace, List.mem_append, List.mem_map, List.mem_range] <;>
      exact h

/-- C8: for every dungeon, position and submitted move, the validation step
of `Updater.update` (`fixMove`, `updater.py:85-94`) coerces the move to Stay
exactly when `Dungeon.is_blocked` holds at the destination — a total
computation that raises nothing; `is_blocked` holds exactly on
out-of-bounds destinations and Wall tiles; and a destination carrying any
in-bounds tile other than Wall — in particular Ground or StaircaseDown — is
never coerced. -/
theorem c8_move_validation (d : Dungeon) (x y : Int) (m : Move) :
    (d.is_blocked (calculate_pos x y m).1 (calculate_pos x y m).2 = true →
      fixMove d x y m = .stay) ∧
    (d.is_blocked (calculate_pos x y m).1 (calculate_pos x y m).2 = false →
      fixMove d x y m = m) ∧
    (d.is_blocked (calculate_pos x y m).1 (calculate_pos x y m).2 = true ↔
      (calculate_pos x y m).1 < 0 ∨ (d.width : Int) ≤ (calculate_pos x y m).1 ∨
      (calculate_pos x y m).2 < 0 ∨ (d.height : Int) ≤ (calculate_pos x y m).2 ∨
      d.tileAt (calculate_pos x y m).1 (calculate_pos x y m).2 = some Tile.wall) ∧
    (∀ t, d.tileAt (calculate_pos x y m).1 (calculate_pos x y m).2 = some t →
      t ≠ Tile.wall → fixMove d x y m = m) := by
  refine ⟨fun hb => by simp [fixMove, hb], fun hb => by simp [fixMove, hb], ?_, ?_⟩
  · constructor
    · intro hb
      unfold Dungeon.is_blocked at hb
      split at hb
      · rename_i hc
        rcases hc with h | h | h | h
        · exact Or.inl h
        · exact Or.inr (Or.inl h)
        · exact Or.inr (Or.inr (Or.inl h))
        · exact Or.inr (Or.inr (Or.inr (Or.inl h)))
      · simp only [beq_iff_eq] at hb
        exact Or.inr (Or.inr (Or.inr (Or.inr hb)))
    · intro h
      unfold Dungeon.is_blocked
      split
      · rfl
      · rename_i hc
        push_neg at hc
        simp only [beq_iff_eq]
        rcases h with h | h | h | h | h
        · omega
        · omega
        · omega
        · omega
        · exact h
  · intro t ht htw
    have hb : d.is_blocked (calculate_pos x y m).1 (calculate_pos x y m).2 = false := by
      unfold Dungeon.is_blocked
      split
      · rename_i hc
        exfalso
        have hnone : d.tileAt (calculate_pos x y m).1 (calculate_pos x y m).2 = none := by
          unfold Dungeon.tileAt
          rw [if_neg]
          intro hall
          obtain ⟨h1, h2, h3, h4⟩ := hall
          rcases hc with h | h | h | h <;> omega
        rw [hnone] at ht
        exact Option.noConfusion ht
      · simp only [beq_eq_false_iff_ne, ne_eq]
        intro hw
        rw [ht] at hw
        exact htw (Option.some.inj hw)
    simp [fixMove, hb]

/-- C7: whenever `Updater.handle_combat` resolves a combat, the emitted
record carries the original base damage, the original tags and both preval
lists, and applying that record to any state whose entities under the two
identifiers carry the same modifier lists reconstructs the same final
`AttackResult`: the replayed damage equals the original run's damage after
the `on` phases exactly, and the defender's health is decreased by that
amount on both sides precisely when it is positive (otherwise both states'
entities are untouched). -/
theorem c7_combat_replay (gs cs : GameState) (attacker defender : Entity)
    (tags : List CombatFlag) (order order' : Nat) (gs' : GameState) (urec : Update)
    (h : Updater.handle_combat gs attacker defender tags order = some (gs', urec, order'))
    (catt cdef : Entity)
    (hatt : cs.getIden attacker.iden = some catt)
    (hdef : cs.getIden defender.iden = some cdef)
    (hm1 : catt.modifiers = attacker.modifiers)
    (hm2 : cdef.modifiers = defender.modifiers) :
    ∃ og aprev dprev final,
      urec = .entityCombat order attacker.iden defender.iden og tags aprev dprev ∧
      combatOutcome attacker.modifiers defender.modifiers og tags aprev dprev = some final ∧
      gs'.entities = (if 0 < final.damage
        then setEnt gs.entities { defender with health := defender.health - final.damage }
        else gs.entities) ∧
      applyUpdate urec cs = some { cs with entities :=
        (if 0 < final.damage
          then setEnt cs.entities { cdef with health := cdef.health - final.damage }
          else cs.entities) } := by
  unfold Updater.handle_combat at h
  split at h
  case _ => exact Option.noConfusion h
  rename_i dmg hdmg
  split at h
  case _ => exact Option.noConfusion h
  rename_i arm harm
  dsimp only at h
  split at h
  case _ => exact Option.noConfusion h
  rename_i ares1 hr1
  split at h
  case _ => exact Option.noConfusion h
  rename_i ares hr2
  simp only [Option.some.injEq, Prod.mk.injEq] at h
  obtain ⟨hgs, hrec, hord⟩ := h
  refine ⟨dmg - arm,
    attacker.modifiers.map fun m => m.pre_event .parent_attack ⟨dmg - arm, tags⟩,
    defender.modifiers.map fun m => m.pre_event .parent_defend ⟨dmg - arm, tags⟩,
    ares, hrec.symm, ?_, ?_, ?_⟩
  · simp only [combatOutcome, hr1, hr2]
  · rw [← hgs]
    by_cases hd : 0 < ares.damage <;> simp [hd]
  · rw [← hrec]
    simp only [applyUpdate, hatt, hdef, hm1, hm2, hr1, hr2]
    by_cases hd : 0 < ares.damage <;> simp [hd]

/-- C7 witness: the block combat of the §8 scenario, replayed against the
scenario state itself. -/
theorem c7_combat_replay_witness :
    ∃ og aprev dprev final,
      c7srv.2.1 = .entityCombat 0 (mkEnt 1 1 1 10 3 0).iden (mkEnt 2 2 1 10 2 1).iden
        og [.block] aprev dprev ∧
      combatOutcome (mkEnt 1 1 1 10 3 0).modifiers (mkEnt 2 2 1 10 2 1).modifiers
        og [.block] aprev dprev = some final ∧
      c7srv.1.entities = (if 0 < final.damage
        then setEnt gsScenario.entities
          { mkEnt 2 2 1 10 2 1 with health := (mkEnt 2 2 1 10 2 1).health - final.damage }
        else gsScenario.entities) ∧
      applyUpdate c7srv.2.1 gsScenario = some { gsScenario with entities :=
        (if 0 < final.damage
          then setEnt gsScenario.entities
            { mkEnt 2 2 1 10 2 1 with health := (mkEnt 2 2 1 10 2 1).health - final.damage }
          else gsScenario.entities) } :=
  c7_combat_replay gsScenario gsScenario (mkEnt 1 1 1 10 3 0) (mkEnt 2 2 1 10 2 1)
    [.block] 0 c7srv.2.2 c7srv.1 c7srv.2.1 rfl (mkEnt 1 1 1 10 3 0) (mkEnt 2 2 1 10 2 1)
    rfl rfl rfl rfl

/-- C9: when `Updater.handle_descend` resolves a mover whose destination was
an unoccupied StaircaseDown tile: a non-player entity yields exactly one
death record and is removed from the state; a player entity is moved to
depth + 1 — the records are a dungeon-created record exactly when no dungeon
existed at that depth (storing the generator's dungeon), followed by a
position record flagged `depth_changed`; the landing cell is a Ground tile
of the depth + 1 dungeon, drawn until unoccupied, and the player's entity
ends there. -/
theorem c9_descend (cfg : UpdaterCfg) (gs : GameState) (entity : Entity)
    (order : Nat) (rng : List Nat) (gs' : GameState) (recs : List Update)
    (order' : Nat) (rng' : List Nat) (rm : RealMove)
    (h : Updater.handle_descend cfg gs entity order rng =
      some (gs', recs, order', rng', rm)) :
    (gs.player_1_iden ≠ entity.iden ∧ gs.player_2_iden ≠ entity.iden →
      recs = [.entityDeath order entity.iden] ∧ gs' = gs.remove_entity entity) ∧
    (¬(gs.player_1_iden ≠ entity.iden ∧ gs.player_2_iden ≠ entity.iden) →
      ∃ sx sy o dung,
        recs = (if alookup gs.world.dungeons (entity.depth + 1) = none
            then [Update.dungeonCreated order (entity.depth + 1)
              (cfg.dgen (entity.depth + 1))]
            else []) ++
          [Update.entityPosition o entity.iden (entity.depth + 1) true sx sy] ∧
        gs'.world.get_at_depth (entity.depth + 1) = some dung ∧
        dung.tileAt sx sy = some Tile.ground ∧
        alookup gs.pos_lookup (entity.depth + 1, sx, sy) = none ∧
        gs'.entities = setEnt gs.entities
          { entity with depth := entity.depth + 1, x := sx, y := sy }) := by
  unfold Updater.handle_descend at h
  split at h
  · rename_i hnpc
    simp only [Option.some.injEq, Prod.mk.injEq] at h
    obtain ⟨h1, h2, h3, h4, h5⟩ := h
    exact ⟨fun _ => ⟨h2.symm, h1.symm⟩, fun hc => absurd hnpc hc⟩
  · rename_i hply
    refine ⟨fun hc => absurd hc hply, fun _ => ?_⟩
    dsimp only at h
    by_cases hnew : alookup gs.world.dungeons (entity.depth + 1) = none
    · rw [if_pos hnew] at h
      dsimp only at h
      split at h
      · exact Option.noConfusion h
      rename_i dung hdung
      split at h
      · exact Option.noConfusion h
      rename_i spx spy rng2 hsp
      split at h
      · exact Option.noConfusion h
      rename_i despawn hdesp
      simp only [Option.some.injEq, Prod.mk.injEq] at h
      obtain ⟨hgs, hrecs, hord, hrng, hrm⟩ := h
      obtain ⟨hground, hfree⟩ :=
        spawnSearch_spec _ dung (entity.depth + 1) rng spx spy rng2 hsp
      refine ⟨spx, spy, order + 1, dung, ?_, ?_, hground, hfree, ?_⟩
      · rw [← hrecs, if_pos hnew]
      · rw [← hgs]
        split
        · show World.get_at_depth (World.del_at_depth _ entity.depth) _ = some dung
          unfold World.get_at_depth World.del_at_depth
          rw [alookup_aerase_ne _ _ _ (by omega)]
          exact hdung
        · exact hdung
      · rw [← hgs]
        split <;> rfl
    · rw [if_neg hnew] at h
      dsimp only at h
      split at h
      · exact Option.noConfusion h
      rename_i dung hdung
      split at h
      · exact Option.noConfusion h
      rename_i spx spy rng2 hsp
      split at h
      · exact Option.noConfusion h
      rename_i despawn hdesp
      simp only [Option.some.injEq, Prod.mk.injEq] at h
      obtain ⟨hgs, hrecs, hord, hrng, hrm⟩ := h
      obtain ⟨hground, hfree⟩ :=
        spawnSearch_spec _ dung (entity.depth + 1) rng spx spy rng2 hsp
      refine ⟨spx, spy, order, dung, ?_, ?_, hground, hfree, ?_⟩
      · rw [← hrecs, if_neg hnew]
      · rw [← hgs]
        split
        · show World.get_at_depth (World.del_at_depth _ entity.depth) _ = some dung
          unfold World.get_at_depth World.del_at_depth
          rw [alookup_aerase_ne _ _ _ (by omega)]
          exact hdung
        · exact hdung
      · rw [← hgs]
        split <;> rfl

/-- C9 witness: player 1 of `gsStairs` descends from depth 0; depth 1 has no
dungeon yet, the generator's open dungeon is created, the first draw lands on
the free Ground cell (0, 0). -/
theorem c9_descend_witness :
    (gsStairs.player_1_iden ≠ pEnt.iden ∧ gsStairs.player_2_iden ≠ pEnt.iden →
      c9run.2.1 = [.entityDeath 0 pEnt.iden] ∧
      c9run.1 = gsStairs.remove_entity pEnt) ∧
    (¬(gsStairs.player_1_iden ≠ pEnt.iden ∧ gsStairs.player_2_iden ≠ pEnt.iden) →
      ∃ sx sy o dung,
        c9run.2.1 = (if alookup gsStairs.world.dungeons (pEnt.depth + 1) = none
            then [Update.dungeonCreated 0 (pEnt.depth + 1) (cfg0.dgen (pEnt.depth + 1))]
            else []) ++
          [Update.entityPosition o pEnt.iden (pEnt.depth + 1) true sx sy] ∧
        c9run.1.world.get_at_depth (pEnt.depth + 1) = some dung ∧
        dung.tileAt sx sy = some Tile.ground ∧
        alookup gsStairs.pos_lookup (pEnt.depth + 1, sx, sy) = none ∧
        c9run.1.entities = setEnt gsStairs.entities
          { pEnt with depth := pEnt.depth + 1, x := sx, y := sy }) :=
  c9_descend cfg0 gsStairs pEnt 0 [0] c9run.1 c9run.2.1
    c9run.2.2.1 c9run.2.2.2.1 c9run.2.2.2.2 rfl

/-- C10 counterexample: an entity on the left edge (0, 1) moving Left has the
out-of-bounds destination (−1, 1); the unchecked tile read
`dung.tiles[-1, 1]` *succeeds* by numpy's negative-index wrap-around (it
reads column `width − 1`, a Ground tile here), so `handle_move` raises
nothing and performs a normal move to x = −1 — the claim's "out-of-range
access" happens only beyond the wrap range, not for every out-of-bounds
destination. -/
theorem c10_negative_index_wraps :
    (Updater.handle_move cfg0 gsC10 0 [⟨1, .left, none⟩] 0 []).map
        (fun r => (r.2.2.1, r.2.1,
          r.1.entities.map fun (e : Entity) => (e.iden, e.x, e.y))) =
      some ([.entityPosition 0 1 0 false (-1) 1],
        [⟨1, .left, some .move⟩], [(1, -1, 1), (2, 3, 2)]) ∧
    dungOpen.tileRead (-1) 1 = some .ground :=
  ⟨rfl, rfl⟩

end Rogue
